import Mathlib

/-!
# Formal model of the LUT weight optimizer

A shallow embedding, in Lean 4, of the core of the lookup-table weight
optimizer (Go packages `internal/optimizer` and `internal/watcher`), together
with theorems settling the frozen specification claims.

Modeling conventions:

* Go `float64` values are modeled as exact rationals (`ℚ`).  Every branch
  decision relevant to the verified claims is far away from the `2⁻⁵²`
  relative rounding error of binary64, and all concrete inputs used in
  counterexamples and witnesses are chosen so that the `float64` computation
  is exact (dyadic values, or values whose comparisons have slack).
* Go `uint64` is modeled as `ℕ`.  No verified claim depends on wraparound at
  `2⁶⁴`; Go's conversion `uint64(f)` of a nonnegative float truncates toward
  zero, which is `⌊q⌋.toNat` here (for negative inputs the Go conversion is
  unspecified; we map them to `0` — every use site clamps from below anyway).
* Go maps keyed by `float64` payouts are iterated only after sorting the
  keys, or in loops whose effect is iteration-order independent, so the
  embedding of `autoSelectOutcomesToVoid` below is deterministic exactly like
  the source.
* Weight arrays (`make([]uint64, n)` plus index assignments) are modeled as
  functions `ℕ → ℕ` updated by an explicit write list, materialized to a
  `List ℕ` of length `n` at the end.  Each Go `weights[idx] = v` statement
  corresponds to one `(idx, v)` entry of the write list, in program order.
-/

namespace LutOpt

/-- Go conversion `uint64(x)` for a float: truncation toward zero for
nonnegative `x` (the conversion is unspecified for negative or out-of-range
values in Go; negative inputs are mapped to `0` here). -/
def goUint64 (q : ℚ) : ℕ := ⌊q⌋.toNat

/-- Go `math.Round`: round to the nearest integer, rounding halves away from
zero. -/
def mathRound (q : ℚ) : ℤ := if 0 ≤ q then ⌊q + 1/2⌋ else -⌊-q + 1/2⌋

/-- Round-half-to-even (banker's rounding).  This definition follows the
spec's words only — it is *not* what the source uses — and exists to be
compared against `mathRound`. -/
def roundHalfToEven (q : ℚ) : ℤ :=
  let f := ⌊q⌋
  let r := q - f
  if r < 1/2 then f
  else if 1/2 < r then f + 1
  else if f % 2 = 0 then f else f + 1

/-- One row of a lookup table (Go `stakergs.Outcome`): a simulation id, a
payout in hundredths of the bet, and an integer weight. -/
structure Outcome where
  simID : ℤ
  payout : ℤ
  weight : ℕ
deriving DecidableEq

/-- A lookup table (Go `stakergs.LookupTable`): a per-spin cost and a list of
outcomes. -/
structure LookupTable where
  cost : ℚ
  outcomes : List Outcome
deriving DecidableEq

/-- The effective cost of a table: Go replaces `cost <= 0` by `1.0` at every
entry point. -/
def effCost (t : LookupTable) : ℚ := if t.cost ≤ 0 then 1 else t.cost

/-- Normalized payouts of a table: `payout / 100 / cost`. -/
def normPayouts (t : LookupTable) : List ℚ :=
  t.outcomes.map (fun o => (o.payout : ℚ) / 100 / effCost t)

/-- Modelled from the spec: the constant `common.BaseWeight` (package
`internal/common` is not part of the examined sources).  The spec fixes it to
a large power of two in the range `2^30`–`2^50`; the claims proved below do
not depend on the particular choice. -/
def BaseWeight : ℕ := 2 ^ 40

/-- Modelled from the spec: `sumUint64` (helper not in the examined sources)
sums a weight slice. -/
def sumUint64 (ws : List ℕ) : ℕ := ws.sum

/-- Modelled from the spec: `calculateRTPFromWeights` (helper not in the
examined sources).  Spec §3: RTP = `Σ(weight_i · normalized_payout_i) /
Σ(weight_i)`.  (In ℚ a zero total weight yields `0`; Go would produce a NaN
there, a case no verified claim touches.) -/
def calculateRTPFromWeights (weights : List ℕ) (payouts : List ℚ) : ℚ :=
  ((weights.zip payouts).map (fun wp => (wp.1 : ℚ) * wp.2)).sum /
    ((weights.map (fun w => (w : ℚ))).sum)

/-! ## Auto-voiding (`autoSelectOutcomesToVoid`, bucket_optimizer.go:230) -/

/-- Information about one auto-voided outcome (Go `VoidedOutcomeInfo`). -/
structure VoidedOutcomeInfo where
  simID : ℤ
  payout : ℚ
  reason : String
  rtpLoss : ℚ
deriving DecidableEq

/-- One payout group for auto-voiding (Go `payoutGroup`): all outcome indices
sharing one exact positive normalized payout, in index order (the Go code
appends them in scan order). -/
structure PayoutGroup where
  payout : ℚ
  indices : List ℕ
  simIDs : List ℤ
  rtpPerOutcome : ℚ
deriving DecidableEq

/-- The group of a given payout value: indices in ascending order, exactly as
the Go scan appends them, with `rtpPerOutcome = payout / n`. -/
def payoutGroupOf (payouts : List ℚ) (simIDs : List ℤ) (v : ℚ) : PayoutGroup :=
  let idxs := (List.range payouts.length).filter (fun i => payouts.getD i 0 = v)
  { payout := v
    indices := idxs
    simIDs := idxs.map (fun i => simIDs.getD i 0)
    rtpPerOutcome := v / (payouts.length : ℚ) }

/-- The distinct positive payout values, sorted descending — the Go code
collects the map keys and sorts them with `sortedPayouts[i] > sortedPayouts[j]`
(keys are distinct, so the order is uniquely determined). -/
def sortedPositivePayoutsDesc (payouts : List ℚ) : List ℚ :=
  List.insertionSort (· ≥ ·) ((payouts.filter (fun p => 0 < p)).dedup)

/-- State threaded through the two voiding phases:
`(removedRTP, voidedIndices, voidedOutcomes)`. -/
structure VoidState where
  removedRTP : ℚ
  voidedIndices : List ℕ
  voidedOutcomes : List VoidedOutcomeInfo
deriving DecidableEq

/-- Phase 1 for one payout group: void all but the first member (reason
`"duplicate"`), stopping as soon as `removedRTP ≥ rtpToRemove`.  The Go
`break` statements are modeled by re-checking the (monotone) stop condition
at each element. -/
def phase1Step (rtpToRemove : ℚ) (st : VoidState) (g : PayoutGroup) : VoidState :=
  if rtpToRemove ≤ st.removedRTP then st
  else if 1 < g.indices.length then
    ((g.indices.zip g.simIDs).drop 1).foldl
      (fun st is =>
        if rtpToRemove ≤ st.removedRTP then st
        else
          { removedRTP := st.removedRTP + g.rtpPerOutcome
            voidedIndices := st.voidedIndices ++ [is.1]
            voidedOutcomes := st.voidedOutcomes ++
              [{ simID := is.2, payout := g.payout, reason := "duplicate"
                 rtpLoss := g.rtpPerOutcome }] })
      st
  else st

/-- Phase 2 for one payout group: if some member is still unvoided, void the
first such member (reason `"high_payout"`), stopping once
`removedRTP ≥ rtpToRemove`. -/
def phase2Step (rtpToRemove : ℚ) (st : VoidState) (g : PayoutGroup) : VoidState :=
  if rtpToRemove ≤ st.removedRTP then st
  else
    let alreadyVoided := st.voidedIndices.countP (fun idx => decide (idx ∈ g.indices))
    if alreadyVoided < g.indices.length then
      match (g.indices.zip g.simIDs).find? (fun is => decide (is.1 ∉ st.voidedIndices)) with
      | some is =>
          { removedRTP := st.removedRTP + g.rtpPerOutcome
            voidedIndices := st.voidedIndices ++ [is.1]
            voidedOutcomes := st.voidedOutcomes ++
              [{ simID := is.2, payout := g.payout, reason := "high_payout"
                 rtpLoss := g.rtpPerOutcome }] }
      | none => st
    else st

/-- Go `autoSelectOutcomesToVoid` (bucket_optimizer.go:230): select outcomes
to void so the table can reach `targetRTP`.  Phase 1 voids duplicate payouts
(all but one per group, highest payout first), phase 2 voids one remaining
outcome per group, highest first, until `currentMinRTP - targetRTP` has been
removed. -/
def autoSelectOutcomesToVoid (payouts : List ℚ) (simIDs : List ℤ)
    (targetRTP currentMinRTP : ℚ) : List ℕ × List VoidedOutcomeInfo :=
  if currentMinRTP ≤ targetRTP then ([], [])
  else if payouts.length = 0 then ([], [])
  else
    let rtpToRemove := currentMinRTP - targetRTP
    let groups := (sortedPositivePayoutsDesc payouts).map (payoutGroupOf payouts simIDs)
    let st1 := groups.foldl (phase1Step rtpToRemove) ⟨0, [], []⟩
    let st2 := groups.foldl (phase2Step rtpToRemove) st1
    (st2.voidedIndices, st2.voidedOutcomes)

/-- Go `calculateMinAchievableRTP` (bucket_optimizer.go:354): the RTP obtained
with uniform weights, `sum(payouts) / n`. -/
def calculateMinAchievableRTP (payouts : List ℚ) : ℚ :=
  if payouts.length = 0 then 0 else payouts.sum / (payouts.length : ℚ)

/-! ## Configuration -/

/-- Go `BucketConstraintType`. -/
inductive BucketConstraintType where
  | frequency
  | rtpPercent
  | auto
  | maxWinFreq
  | outcomeFreq
deriving DecidableEq

/-- Go `BucketConfig`.  The `AutoExponent` is modeled as an integer so that
`math.Pow` on positive rationals stays exact; its default (unset, i.e. `0`,
replaced by `1.0` in the solver) and the claims below only need integral
exponents.  The fields `Priority` and `IsMaxWinBucket` are never read by the
functions modeled here and are omitted. -/
structure BucketConfig where
  name : String := ""
  minPayout : ℚ := 0
  maxPayout : ℚ := 0
  type : BucketConstraintType := .frequency
  frequency : ℚ := 0
  rtpPercent : ℚ := 0
  autoExponent : ℤ := 0
  maxWinFrequency : ℚ := 0
deriving DecidableEq

instance : Inhabited BucketConfig := ⟨{}⟩

/-- Go `BucketOptimizerConfig` (fields read by the modeled code paths; the
brute-force knobs `MaxIterations`, `OptimizationMode`, `GlobalMaxWinFreq` and
`EnableBruteForce` are not read by `OptimizeTable` itself). -/
structure BucketOptimizerConfig where
  targetRTP : ℚ := 0
  rtpTolerance : ℚ := 0
  buckets : List BucketConfig := []
  minWeight : ℕ := 0
  enableVoiding : Bool := false
  voidedBucketIndices : List ℕ := []
  enableAutoVoiding : Bool := false
deriving DecidableEq

instance : Inhabited BucketOptimizerConfig := ⟨{}⟩

/-- The normalization performed by Go `NewBucketOptimizer`
(bucket_optimizer.go:133): `MinWeight < 1` becomes `1`, `RTPTolerance ≤ 0`
becomes `0.001`. -/
def normalizeConfig (c : BucketOptimizerConfig) : BucketOptimizerConfig :=
  { c with
    minWeight := if c.minWeight < 1 then 1 else c.minWeight
    rtpTolerance := if c.rtpTolerance ≤ 0 then 1/1000 else c.rtpTolerance }

/-! ## Bucket assignment (`assignOutcomesToBuckets`, bucket_optimizer.go:528)

The Go loop walks the outcomes once and appends each winning outcome to the
first bucket whose range contains it (falling back to the closest bucket by
endpoint distance), and each losing outcome to `lossIndices`.  Bucket ranges
never change during the loop, so outcome `i` lands in bucket `j` iff
`assignIdxOf` designates `j` for its payout, and the append order inside each
bucket is ascending outcome index; the definitions below express the loop's
result directly in that form.  The one non-total behavior is preserved: with
zero buckets and at least one winning outcome, the Go fallback executes
`assignments[0]` on an empty slice and panics — modeled as `none`.  (The Go
function also returns a `warnings` slice that is never appended to; it is
dropped here.) -/

/-- Largest finite `float64` (`math.MaxFloat64`), the initial "closest
distance" of the fallback search. -/
def maxFloat64 : ℚ := ((2 ^ 1024 - 2 ^ 971 : ℕ) : ℚ)

/-- Whether payout `p` falls in bucket `j`'s range: `min ≤ p < max`, except
the last bucket which is closed on the right (`min ≤ p ≤ max`). -/
def inRangeB (cfgs : List BucketConfig) (j : ℕ) (p : ℚ) : Bool :=
  let b := cfgs.getD j default
  decide (b.minPayout ≤ p) &&
    (if j + 1 < cfgs.length then decide (p < b.maxPayout) else decide (p ≤ b.maxPayout))

/-- The first bucket whose range contains `p`, if any. -/
def firstMatchIdx (cfgs : List BucketConfig) (p : ℚ) : Option ℕ :=
  (List.range cfgs.length).find? (fun j => inRangeB cfgs j p)

/-- Fallback for a payout matching no bucket: the first bucket minimizing
`min(|p - min_payout|, |p - max_payout|)` (strict improvement, initial best
distance `math.MaxFloat64`). -/
def closestIdx (cfgs : List BucketConfig) (p : ℚ) : ℕ :=
  (cfgs.enum.foldl
    (fun st jb =>
      let dist := min |p - jb.2.minPayout| |p - jb.2.maxPayout|
      if dist < st.2 then (jb.1, dist) else st)
    ((0 : ℕ), maxFloat64)).1

/-- The bucket a winning payout `p` is assigned to: first range match, else
the closest bucket; `none` models the Go panic (no buckets at all). -/
def assignIdxOf (cfgs : List BucketConfig) (p : ℚ) : Option ℕ :=
  match firstMatchIdx cfgs p with
  | some j => some j
  | none => if cfgs.length = 0 then none else some (closestIdx cfgs p)

/-- Go `bucketAssignment`: a bucket's config together with the outcomes
assigned to it and the solver outputs attached to it later. -/
structure bucketAssignment where
  config : BucketConfig
  outcomeIndices : List ℕ := []
  payouts : List ℚ := []
  targetProb : ℚ := 0
  outcomeProbs : List ℚ := []
  avgPayout : ℚ := 0
  rtpContribution : ℚ := 0
  isAuto : Bool := false
  isVoided : Bool := false
deriving DecidableEq

instance : Inhabited bucketAssignment := ⟨{ config := default }⟩

/-- The outcome indices assigned to bucket `j`, in ascending order. -/
def bucketIndicesFor (cfgs : List BucketConfig) (payouts : List ℚ) (j : ℕ) : List ℕ :=
  (List.range payouts.length).filter
    (fun i => decide (0 < payouts.getD i 0) &&
      (assignIdxOf cfgs (payouts.getD i 0) == some j))

/-- The loss indices: outcomes with normalized payout `≤ 0`, in order. -/
def lossIndicesFor (payouts : List ℚ) : List ℕ :=
  (List.range payouts.length).filter (fun i => decide (payouts.getD i 0 ≤ 0))

/-- The assignment record for bucket `j` (average payout computed at the end
of the Go loop, `0` for an empty bucket). -/
def mkAssignment (cfgs : List BucketConfig) (payouts : List ℚ) (j : ℕ)
    (c : BucketConfig) : bucketAssignment :=
  let idxs := bucketIndicesFor cfgs payouts j
  let pays := idxs.map (fun i => payouts.getD i 0)
  { config := c
    outcomeIndices := idxs
    payouts := pays
    avgPayout := if 0 < pays.length then pays.sum / (pays.length : ℚ) else 0 }

/-- Go `assignOutcomesToBuckets` (bucket_optimizer.go:528). -/
def assignOutcomesToBuckets (cfgs : List BucketConfig) (payouts : List ℚ) :
    Option (List bucketAssignment × List ℕ) :=
  if (List.range payouts.length).any
      (fun i => decide (0 < payouts.getD i 0) &&
        (assignIdxOf cfgs (payouts.getD i 0)).isNone) then
    none
  else
    some (cfgs.enum.map (fun jc => mkAssignment cfgs payouts jc.1 jc.2),
          lossIndicesFor payouts)

/-! ## Target-probability solver (`calculateTargetProbabilities`,
bucket_optimizer.go:606)

Pass 1 walks the buckets once; each iteration only updates its own bucket and
adds its RTP contribution to `usedRTP`, so it is rendered as a `map` plus a
sum of per-bucket contributions.  Pass 2 computes the global quantities
`remainingRTP` and `Σ p^(1-exp)` from the pass-1 state and then updates every
(nonempty) auto bucket. -/

/-- Pass-1 update of one bucket (empty buckets are skipped; `max_win_freq`
and `outcome_freq` have no case in the Go switch). -/
def pass1Update (targetRTP : ℚ) (b : bucketAssignment) : bucketAssignment :=
  if b.outcomeIndices.length = 0 then b
  else
    match b.config.type with
    | .frequency =>
        let tp := if 0 < b.config.frequency then 1 / b.config.frequency else b.targetProb
        { b with targetProb := tp, rtpContribution := tp * b.avgPayout }
    | .rtpPercent =>
        if 0 < b.avgPayout ∧ 0 < b.config.rtpPercent then
          let contrib := (b.config.rtpPercent / 100) * targetRTP
          { b with rtpContribution := contrib, targetProb := contrib / b.avgPayout }
        else b
    | .auto => { b with isAuto := true }
    | _ => b

/-- The amount pass 1 adds to `usedRTP` for one bucket. -/
def pass1Contribution (targetRTP : ℚ) (b : bucketAssignment) : ℚ :=
  if b.outcomeIndices.length = 0 then 0
  else
    match b.config.type with
    | .frequency =>
        (if 0 < b.config.frequency then 1 / b.config.frequency else b.targetProb) * b.avgPayout
    | .rtpPercent =>
        if 0 < b.avgPayout ∧ 0 < b.config.rtpPercent then
          (b.config.rtpPercent / 100) * targetRTP
        else 0
    | _ => 0

/-- `usedRTP` after pass 1. -/
def usedRTPOf (targetRTP : ℚ) (as : List bucketAssignment) : ℚ :=
  (as.map (pass1Contribution targetRTP)).sum

/-- `remainingRTP = max(targetRTP - usedRTP, 0)`. -/
def remainingRTPOf (targetRTP : ℚ) (as : List bucketAssignment) : ℚ :=
  max (targetRTP - usedRTPOf targetRTP as) 0

/-- The effective auto exponent: `AutoExponent`, defaulting to `1.0` when
unset or nonpositive (`if exp <= 0 { exp = 1.0 }`). -/
def effExponent (b : BucketConfig) : ℤ := if b.autoExponent ≤ 0 then 1 else b.autoExponent

/-- An auto bucket that participates in pass 2: flagged auto and nonempty. -/
def isActiveAuto (b : bucketAssignment) : Bool :=
  b.isAuto && decide (b.outcomeIndices ≠ [])

/-- `Σ_k p_k^(1-exp)` over all outcomes of all (nonempty) auto buckets, each
with its own bucket's effective exponent, skipping nonpositive payouts. -/
def sumPow1MinusExp (as : List bucketAssignment) : ℚ :=
  ((as.filter isActiveAuto).map
    (fun b => ((b.payouts.filter (fun p => 0 < p)).map
      (fun p => p ^ (1 - effExponent b.config))).sum)).sum

/-- Pass-2 update of one (active) auto bucket: per-outcome probabilities by
the inverse-payout rule, the bucket's target probability is their sum, its
RTP contribution is `Σ prob_j · p_j`. -/
def pass2Update (remaining sumP : ℚ) (b : bucketAssignment) : bucketAssignment :=
  if isActiveAuto b then
    let probs := b.payouts.map
      (fun p => if 0 < p ∧ 0 < sumP then remaining * p ^ (-effExponent b.config) / sumP else 0)
    { b with
      outcomeProbs := probs
      targetProb := probs.sum
      rtpContribution := ((probs.zip b.payouts).map (fun pq => pq.1 * pq.2)).sum }
  else b

/-- Go `calculateTargetProbabilities` (bucket_optimizer.go:606); the returned
warning text is abbreviated, its presence condition is faithful. -/
def calculateTargetProbabilities (cfg : BucketOptimizerConfig)
    (as : List bucketAssignment) : List bucketAssignment × List String :=
  let as1 := as.map (pass1Update cfg.targetRTP)
  let used := usedRTPOf cfg.targetRTP as
  let remaining := max (cfg.targetRTP - used) 0
  let warnings :=
    if cfg.targetRTP < used then ["constraints already exceed target RTP"] else []
  if (as1.any isActiveAuto) ∧ 0 < remaining then
    (as1.map (pass2Update remaining (sumPow1MinusExp as1)), warnings)
  else (as1, warnings)

/-! ## Weight materializer (`calculateWeightsWithVoiding`,
bucket_optimizer.go:964)

The Go weight array `make([]uint64, n)` with index assignments is modeled as
a function `ℕ → ℕ` (initially constant `0`) updated through an explicit list
of `(index, value)` writes in program order. -/

/-- One array store `weights[k] = v`. -/
def override (w : ℕ → ℕ) (k v : ℕ) : ℕ → ℕ := fun i => if i = k then v else w i

/-- Apply a list of array stores in order. -/
def applyWrites (ps : List (ℕ × ℕ)) (w : ℕ → ℕ) : ℕ → ℕ :=
  ps.foldl (fun w kv => override w kv.1 kv.2) w

/-- The stores performed for one bucket: empty or legacy-voided buckets are
skipped; an auto bucket with matching `outcomeProbs` stores
`max(minWeight, ⌊prob·BASE⌋)` per outcome (0 for voided outcomes); any other
bucket distributes `⌊targetProb·BASE⌋` evenly over its non-voided outcomes,
floored at `minWeight` (nothing at all if every outcome is voided). -/
def bucketWritePairs (minWeight : ℕ) (voided : List ℕ) (b : bucketAssignment) :
    List (ℕ × ℕ) :=
  if b.outcomeIndices.length = 0 ∨ b.isVoided then []
  else if b.isAuto ∧ b.outcomeProbs.length = b.outcomeIndices.length then
    (b.outcomeIndices.zip b.outcomeProbs).map
      (fun ip => (ip.1,
        if ip.1 ∈ voided then 0
        else max minWeight (goUint64 (ip.2 * (BaseWeight : ℚ)))))
  else
    let nonVoidedCount := b.outcomeIndices.countP (fun idx => decide (idx ∉ voided))
    if 0 < nonVoidedCount then
      let bucketTotalWeight := goUint64 (b.targetProb * (BaseWeight : ℚ))
      let wpo := max minWeight (bucketTotalWeight / nonVoidedCount)
      b.outcomeIndices.map (fun idx => (idx, if idx ∈ voided then 0 else wpo))
    else []

/-- All bucket stores, in bucket order. -/
def winPhaseWrites (minWeight : ℕ) (voided : List ℕ)
    (as : List bucketAssignment) : List (ℕ × ℕ) :=
  as.flatMap (bucketWritePairs minWeight voided)

/-- The weight function after the bucket loop and the
`weights[idx] = 0`-for-voided loop. -/
def midWeightsFun (minWeight : ℕ) (voided : List ℕ)
    (as : List bucketAssignment) : ℕ → ℕ :=
  applyWrites (winPhaseWrites minWeight voided as ++ voided.map (fun idx => (idx, 0)))
    (fun _ => 0)

/-- `weightedPayoutSum`: `Σ w_i·p_i` over entries with `p_i > 0` and
`w_i > 0`. -/
def weightedPayoutSumOf (payouts : List ℚ) (w : ℕ → ℕ) : ℚ :=
  ((List.range payouts.length).map
    (fun i => if 0 < payouts.getD i 0 ∧ 0 < w i then (w i : ℚ) * payouts.getD i 0 else 0)).sum

/-- `totalWinWeight`: `Σ w_i` over the same entries. -/
def totalWinWeightOf (payouts : List ℚ) (w : ℕ → ℕ) : ℕ :=
  ((List.range payouts.length).map
    (fun i => if 0 < payouts.getD i 0 ∧ 0 < w i then w i else 0)).sum

/-- `requiredLossWeight = weightedPayoutSum / targetRTP - totalWinWeight`,
clamped from below to `minWeight`. -/
def requiredLossWeightOf (cfg : BucketOptimizerConfig) (payouts : List ℚ)
    (w : ℕ → ℕ) : ℚ :=
  if weightedPayoutSumOf payouts w / cfg.targetRTP - (totalWinWeightOf payouts w : ℚ)
      < (cfg.minWeight : ℚ) then (cfg.minWeight : ℚ)
  else weightedPayoutSumOf payouts w / cfg.targetRTP - (totalWinWeightOf payouts w : ℚ)

/-- `lossWeightPerOutcome = uint64(math.Round(requiredLossWeight / |loss|))`,
then floored at `minWeight`. -/
def lossWeightPerOutcomeOf (cfg : BucketOptimizerConfig) (payouts : List ℚ)
    (w : ℕ → ℕ) (lossLen : ℕ) : ℕ :=
  max cfg.minWeight
    (mathRound (requiredLossWeightOf cfg payouts w / (lossLen : ℚ))).toNat

/-- Go `calculateWeightsWithVoiding` (bucket_optimizer.go:964), restricted to
its first return value, the weight vector.  (The `BucketResult` records and
the loss `BucketResult` it also returns are pure reporting and never feed
back into the weights; they are not modeled.) -/
def calculateWeightsWithVoiding (cfg : BucketOptimizerConfig) (payouts : List ℚ)
    (as : List bucketAssignment) (lossIndices : List ℕ) (voided : List ℕ) : List ℕ :=
  (List.range payouts.length).map
    (if lossIndices.length = 0 then midWeightsFun cfg.minWeight voided as
     else
       applyWrites
         (lossIndices.map (fun idx => (idx,
           lossWeightPerOutcomeOf cfg payouts (midWeightsFun cfg.minWeight voided as)
             lossIndices.length)))
         (midWeightsFun cfg.minWeight voided as))

/-- The fine-tune pass's weighted payout sum (wins, `w > 0`, not voided). -/
def fineTuneS (payouts : List ℚ) (voided : List ℕ) (w : ℕ → ℕ) : ℚ :=
  ((List.range payouts.length).map
    (fun i => if 0 < payouts.getD i 0 ∧ 0 < w i ∧ i ∉ voided then
        (w i : ℚ) * payouts.getD i 0 else 0)).sum

/-- The fine-tune pass's total win weight (same filter). -/
def fineTuneW (payouts : List ℚ) (voided : List ℕ) (w : ℕ → ℕ) : ℕ :=
  ((List.range payouts.length).map
    (fun i => if 0 < payouts.getD i 0 ∧ 0 < w i ∧ i ∉ voided then w i else 0)).sum

/-- The fine-tune pass's required total loss weight, clamped from below at
`|loss|` (not at `minWeight`, unlike the first pass). -/
def fineTuneRequired (cfg : BucketOptimizerConfig) (payouts : List ℚ)
    (lossIndices : List ℕ) (voided : List ℕ) (w : ℕ → ℕ) : ℚ :=
  if fineTuneS payouts voided w / cfg.targetRTP - (fineTuneW payouts voided w : ℚ)
      < (lossIndices.length : ℚ) then (lossIndices.length : ℚ)
  else fineTuneS payouts voided w / cfg.targetRTP - (fineTuneW payouts voided w : ℚ)

/-- The fine-tune pass's per-loss-outcome weight. -/
def fineTunePer (cfg : BucketOptimizerConfig) (payouts : List ℚ)
    (lossIndices : List ℕ) (voided : List ℕ) (w : ℕ → ℕ) : ℕ :=
  max cfg.minWeight
    (mathRound (fineTuneRequired cfg payouts lossIndices voided w /
      (lossIndices.length : ℚ))).toNat

/-- Go `fineTuneLossWeightWithVoiding` (bucket_optimizer.go:1122): recompute
the loss weight from the realized win weights (excluding voided outcomes),
clamping the required total at `|loss|` instead of `minWeight`, and rewrite
the loss outcomes. -/
def fineTuneLossWeightWithVoiding (cfg : BucketOptimizerConfig) (weights : List ℕ)
    (payouts : List ℚ) (lossIndices : List ℕ) (voided : List ℕ) : List ℕ :=
  (List.range weights.length).map
    (applyWrites (lossIndices.map (fun idx => (idx,
        fineTunePer cfg payouts lossIndices voided (fun i => weights.getD i 0))))
      (fun i => weights.getD i 0))

/-! ## `OptimizeTable` (bucket_optimizer.go:367) -/

/-- Go `BucketOptimizerResult`, restricted to the fields the verified claims
are about (the report-only fields `BucketResults`, `LossResult`, `Warnings`,
`OutcomeDetails` and `VoidedBuckets` are produced from the same data but
never feed back into these fields). -/
structure BucketOptimizerResult where
  originalRTP : ℚ
  finalRTP : ℚ
  targetRTP : ℚ
  converged : Bool
  newWeights : List ℕ
  totalWeight : ℕ
  voidedOutcomes : List VoidedOutcomeInfo
  totalVoided : ℕ
  voidedRTP : ℚ
deriving DecidableEq

/-- The legacy (deprecated) voided-bucket index set, active only when
`EnableVoiding` is set and the list is nonempty. -/
def legacyVoidedBucketIdx (cfg : BucketOptimizerConfig) : List ℕ :=
  if cfg.enableVoiding ∧ cfg.voidedBucketIndices ≠ [] then cfg.voidedBucketIndices else []

/-- Mark legacy-voided buckets (`assignments[i].isVoided = true`). -/
def markLegacyVoided (cfg : BucketOptimizerConfig) (as : List bucketAssignment) :
    List bucketAssignment :=
  as.enum.map (fun jb =>
    if jb.1 ∈ legacyVoidedBucketIdx cfg then { jb.2 with isVoided := true } else jb.2)

/-- The outcome indices of all legacy-voided buckets, in bucket order. -/
def legacyVoidedOutcomeIdx (cfg : BucketOptimizerConfig)
    (as : List bucketAssignment) : List ℕ :=
  (as.enum.filter (fun jb => decide (jb.1 ∈ legacyVoidedBucketIdx cfg))).flatMap
    (fun jb => jb.2.outcomeIndices)

/-- The auto-voiding step of `OptimizeTable`: run only when
`EnableAutoVoiding` is set. -/
def autoVoidResult (cfg : BucketOptimizerConfig) (t : LookupTable) :
    List ℕ × List VoidedOutcomeInfo :=
  if cfg.enableAutoVoiding then
    autoSelectOutcomesToVoid (normPayouts t) (t.outcomes.map (fun o => o.simID))
      cfg.targetRTP (calculateMinAchievableRTP (normPayouts t))
  else ([], [])

/-- The full voided-outcome index list `OptimizeTable` works with: legacy
bucket voids first, then auto voids (empty when the assignment step would
panic). -/
def voidedIndicesOf (cfg : BucketOptimizerConfig) (t : LookupTable) : List ℕ :=
  match assignOutcomesToBuckets cfg.buckets (normPayouts t) with
  | none => []
  | some (as0, _) => legacyVoidedOutcomeIdx cfg as0 ++ (autoVoidResult cfg t).1

/-- Go `OptimizeTable` (bucket_optimizer.go:367).  The return type separates
the three ways the Go method can end: `some (.error _)` for the explicit
`"empty table"` error return, `none` for a runtime panic (only possible in
the bucket-assignment step), and `some (.ok _)` for a normal result. -/
def optimizeTable (cfg : BucketOptimizerConfig) (t : LookupTable) :
    Option (Except String BucketOptimizerResult) :=
  if t.outcomes.length = 0 then some (Except.error "empty table")
  else
    let payouts := normPayouts t
    let originalWeights := t.outcomes.map (fun o => o.weight)
    let originalRTP := calculateRTPFromWeights originalWeights payouts
    let av := autoVoidResult cfg t
    let autoVoidedRTP := (av.2.map (fun vo => vo.rtpLoss)).sum
    match assignOutcomesToBuckets cfg.buckets payouts with
    | none => none
    | some (as0, lossIndices) =>
      let as1 := markLegacyVoided cfg as0
      let voidedIdx := legacyVoidedOutcomeIdx cfg as0 ++ av.1
      let as2 := (calculateTargetProbabilities cfg as1).1
      let w0 := calculateWeightsWithVoiding cfg payouts as2 lossIndices voidedIdx
      let rtp0 := calculateRTPFromWeights w0 payouts
      let conv0 := decide (|rtp0 - cfg.targetRTP| ≤ cfg.rtpTolerance)
      let fin :=
        if conv0 = false ∧ lossIndices ≠ [] then
          let w1 := fineTuneLossWeightWithVoiding cfg w0 payouts lossIndices voidedIdx
          let rtp1 := calculateRTPFromWeights w1 payouts
          (w1, rtp1, decide (|rtp1 - cfg.targetRTP| ≤ cfg.rtpTolerance))
        else (w0, rtp0, conv0)
      some (Except.ok
        { originalRTP := originalRTP
          finalRTP := fin.2.1
          targetRTP := cfg.targetRTP
          converged := fin.2.2
          newWeights := fin.1
          totalWeight := sumUint64 fin.1
          voidedOutcomes := av.2
          totalVoided := av.2.length
          voidedRTP := autoVoidedRTP })

/-! ## Mode analyzer (`AnalyzeTable`, mode_analyzer.go:86) -/

/-- Go `ModeAnalysis`, restricted to the fields the claims are about (the
payout statistics, percentiles, classification and bucket recommendations are
computed from the same inputs and never feed back into these fields). -/
structure ModeAnalysis where
  totalOutcomes : ℕ
  minPayout : ℚ
  maxPayout : ℚ
  minAchievableRTP : ℚ
  maxAchievableRTP : ℚ
  feasible : Bool
  suggestedRTP : ℚ
deriving DecidableEq

/-- The winning normalized payouts of a table, in table order. -/
def winPayoutsOf (t : LookupTable) : List ℚ :=
  (normPayouts t).filter (fun p => 0 < p)

/-- The analyzer's running minimum over winning payouts, started at
`math.MaxFloat64`. -/
def minPayFold (wins : List ℚ) : ℚ :=
  wins.foldl (fun m p => if p < m then p else m) maxFloat64

/-- The analyzer's running maximum over winning payouts, started at `0`. -/
def maxPayFold (wins : List ℚ) : ℚ :=
  wins.foldl (fun m p => if m < p then p else m) 0

/-- Go `AnalyzeTable` (mode_analyzer.go:86), restricted to the RTP-bounds and
feasibility outputs. -/
def analyzeTable (t : LookupTable) (targetRTP : ℚ) : Except String ModeAnalysis :=
  if t.outcomes.length = 0 then Except.error "empty table"
  else
    let wins := winPayoutsOf t
    if wins.length = 0 then Except.error "no winning outcomes in table"
    else
      let minPay0 := minPayFold wins
      let maxPay := maxPayFold wins
      let minPay := if minPay0 = maxFloat64 then 0 else minPay0
      let feasible := decide (minPay ≤ targetRTP ∧ targetRTP ≤ maxPay)
      let suggested :=
        if feasible then 0
        else if maxPay < targetRTP then maxPay * (95/100)
        else minPay * (105/100)
      Except.ok
        { totalOutcomes := t.outcomes.length
          minPayout := minPay
          maxPayout := maxPay
          minAchievableRTP := minPay
          maxAchievableRTP := maxPay
          feasible := feasible
          suggestedRTP := suggested }

/-! ## Analyzer HTTP entry points: `target_rtp` parsing

`parsed = some v` models a present `target_rtp` query parameter that parses
as the float `v`; `none` models an absent or unparsable parameter. -/

/-- `HandleAnalyzeMode` (mode_analyzer.go:1200): default `0.96`; a parsed
value is used whenever it is `> 0` (values above 1 are accepted). -/
def handleAnalyzeTargetRTP (parsed : Option ℚ) : ℚ :=
  match parsed with
  | some v => if 0 < v then v else 96/100
  | none => 96/100

/-- `HandleSuggestBuckets` (mode_analyzer.go:1115): default `0.97`; a parsed
value is used only when `0 < v < 1`. -/
def handleSuggestTargetRTP (parsed : Option ℚ) : ℚ :=
  match parsed with
  | some v => if 0 < v ∧ v < 1 then v else 97/100
  | none => 97/100

/-! ## File watcher (`handleEvent`, watcher.go:125)

Time is modeled in integer nanoseconds.  `handleEvent` returns the new
watcher state and `some mode` when a reload goroutine is launched for `mode`
(the goroutine then waits for file stability and calls the reload callback),
`none` when the event is dropped.  The event's `name` is the base filename
(Go applies `filepath.Base` first). -/

/-- The watcher state fields read and written by `handleEvent`. -/
structure FileWatcherState where
  files : String → Option String
  debounce : ℤ
  lastChange : String → Option ℤ
  enabled : Bool

/-- Go `NewFileWatcher` (watcher.go:38): debounce 2 s (`2·10⁹` ns), empty
`lastChange`, enabled by default. -/
def newFileWatcher (files : String → Option String) : FileWatcherState :=
  { files := files
    debounce := 2000000000
    lastChange := fun _ => none
    enabled := true }

/-- A filesystem notification event. -/
structure FsEvent where
  name : String
  isWrite : Bool
  isCreate : Bool

/-- Go `handleEvent` (watcher.go:125). -/
def handleEvent (fw : FileWatcherState) (e : FsEvent) (now : ℤ) :
    FileWatcherState × Option String :=
  if fw.enabled = false then (fw, none)
  else if e.isWrite = false ∧ e.isCreate = false then (fw, none)
  else
    match fw.files e.name with
    | none => (fw, none)
    | some mode =>
      match fw.lastChange e.name with
      | some lastTime =>
          if now - lastTime < fw.debounce then (fw, none)
          else
            ({ fw with lastChange :=
                fun f => if f = e.name then some now else fw.lastChange f },
             some mode)
      | none =>
          ({ fw with lastChange :=
              fun f => if f = e.name then some now else fw.lastChange f },
           some mode)

/-! # Claims -/

/-! ## C1 — auto-voiding on the eight-duplicates scenario -/

/-- Normalized payouts of the C1 scenario: eight outcomes of payout 5.0 and
one loss (cost 1). -/
def payoutsC1 : List ℚ := [5, 5, 5, 5, 5, 5, 5, 5, 0]

/-- Simulation ids for the C1 scenario. -/
def simIDsC1 : List ℤ := [10, 11, 12, 13, 14, 15, 16, 17, 18]

/-- C1 counterexample: on eight payout-5 outcomes plus one loss with target
RTP 0.1, auto-voiding does *not* stop after the 7 phase-1 duplicates — after
phase 1 only `7·5/9 = 35/9` RTP is removed while the deficit is
`40/9 − 1/10`, so phase 2 voids the remaining payout-5 outcome with reason
`"high_payout"`, for 8 voids in total, contradicting the claim that phase 2
voids no further outcomes. -/
theorem c1_counterexample :
    (autoSelectOutcomesToVoid payoutsC1 simIDsC1 (1/10)
        (calculateMinAchievableRTP payoutsC1)).2.map VoidedOutcomeInfo.reason
      = ["duplicate", "duplicate", "duplicate", "duplicate", "duplicate",
         "duplicate", "duplicate", "high_payout"] ∧
    (autoSelectOutcomesToVoid payoutsC1 simIDsC1 (1/10)
        (calculateMinAchievableRTP payoutsC1)).2.length ≠ 7 :=
  of_decide_eq_true (by with_unfolding_all rfl)

/-- C1 (amended): on the eight-duplicates scenario with target 0.1, phase 1
voids 7 of the 8 payout-5 outcomes with reason `"duplicate"` (removing
`35/9 ≈ 3.89` RTP), and because `35/9` is still below the deficit
`40/9 − 0.1`, phase 2 then voids the one remaining payout-5 outcome with
reason `"high_payout"` (total removed `40/9 ≈ 4.44`). -/
theorem c1_amended :
    autoSelectOutcomesToVoid payoutsC1 simIDsC1 (1/10)
        (calculateMinAchievableRTP payoutsC1)
      = ([1, 2, 3, 4, 5, 6, 7, 0],
         [⟨11, 5, "duplicate", 5/9⟩, ⟨12, 5, "duplicate", 5/9⟩,
          ⟨13, 5, "duplicate", 5/9⟩, ⟨14, 5, "duplicate", 5/9⟩,
          ⟨15, 5, "duplicate", 5/9⟩, ⟨16, 5, "duplicate", 5/9⟩,
          ⟨17, 5, "duplicate", 5/9⟩, ⟨10, 5, "high_payout", 5/9⟩]) ∧
    calculateMinAchievableRTP payoutsC1 = 40/9 ∧
    (7 : ℚ) * (5/9) < 40/9 - 1/10 :=
  of_decide_eq_true (by with_unfolding_all rfl)

/-! ## C8 — analyzer entry points and `target_rtp > 1` -/

/-- C8 counterexample: `HandleSuggestBuckets` does not use a parsed
`target_rtp` of `2` — its guard `parsed > 0 && parsed < 1` fails, so the
default `0.97` is used instead, contradicting the claim that every analyzer
entry point uses any float `> 0` as given. -/
theorem c8_counterexample :
    handleSuggestTargetRTP (some 2) = 97/100 ∧ (97/100 : ℚ) ≠ 2 :=
  of_decide_eq_true (by with_unfolding_all rfl)

/-- C8 (amended): `HandleAnalyzeMode` uses any parsed `target_rtp > 0` as
given (so targets above 1 can be analyzed there), while `HandleSuggestBuckets`
uses a parsed value only when `0 < v < 1` and silently falls back to the
default `0.97` for any `v ≥ 1`. -/
theorem c8_amended : ∀ v : ℚ, 0 < v →
    handleAnalyzeTargetRTP (some v) = v ∧
    (v < 1 → handleSuggestTargetRTP (some v) = v) ∧
    (1 ≤ v → handleSuggestTargetRTP (some v) = 97/100) := by
  intro v hv
  refine ⟨?_, ?_, ?_⟩
  · simp [handleAnalyzeTargetRTP, hv]
  · intro h1
    simp [handleSuggestTargetRTP, hv, h1]
  · intro h1
    have : ¬ (0 < v ∧ v < 1) := by
      rintro ⟨-, hlt⟩
      exact absurd (lt_of_le_of_lt h1 hlt) (lt_irrefl 1)
    simp [handleSuggestTargetRTP, this]

/-- C8 witness: the amended statement evaluated at `v = 2`. -/
theorem c8_witness :
    (0 : ℚ) < 2 ∧
    (handleAnalyzeTargetRTP (some 2) = 2 ∧
      ((2 : ℚ) < 1 → handleSuggestTargetRTP (some 2) = 2) ∧
      ((1 : ℚ) ≤ 2 → handleSuggestTargetRTP (some 2) = 97/100)) :=
  ⟨of_decide_eq_true (by with_unfolding_all rfl), c8_amended 2 (by norm_num)⟩

/-! ## C9 — watcher debounce -/

/-- C9: a fresh watcher debounces at 2 seconds (`2·10⁹` ns), and whenever an
event for a tracked file is accepted at time `t1` (a reload is triggered),
any second event for the same filename arriving at `t2` with
`t2 − t1 < debounce` is dropped: the state is unchanged and no second reload
is triggered — so two write events inside the debounce window cause at most
one reload call. -/
theorem c9_debounce :
    (∀ files, (newFileWatcher files).debounce = 2000000000) ∧
    (∀ (fw : FileWatcherState) (e1 e2 : FsEvent) (t1 t2 : ℤ)
       (fw1 : FileWatcherState) (r1 : Option String),
      e2.name = e1.name →
      t2 - t1 < fw.debounce →
      handleEvent fw e1 t1 = (fw1, r1) →
      r1.isSome = true →
      handleEvent fw1 e2 t2 = (fw1, none)) := by
  constructor
  · intro files; rfl
  · intro fw e1 e2 t1 t2 fw1 r1 hname hlt h1 hsome
    unfold handleEvent at h1
    by_cases hen : fw.enabled = false
    · simp only [if_pos hen] at h1
      injection h1 with hA hB; subst hA; subst hB; simp at hsome
    · simp only [if_neg hen] at h1
      by_cases hwc : e1.isWrite = false ∧ e1.isCreate = false
      · simp only [if_pos hwc] at h1
        injection h1 with hA hB; subst hA; subst hB; simp at hsome
      · simp only [if_neg hwc] at h1
        cases hfile : fw.files e1.name with
        | none =>
          simp only [hfile] at h1
          injection h1 with hA hB; subst hA; subst hB; simp at hsome
        | some mode =>
          simp only [hfile] at h1
          cases hlast : fw.lastChange e1.name with
          | some lastTime =>
            simp only [hlast] at h1
            by_cases hdb : t1 - lastTime < fw.debounce
            · simp only [if_pos hdb] at h1
              injection h1 with hA hB; subst hA; subst hB; simp at hsome
            · simp only [if_neg hdb] at h1
              injection h1 with hA hB; subst hA; subst hB
              unfold handleEvent
              simp only [hname, hfile, hen]
              by_cases hwc2 : e2.isWrite = false ∧ e2.isCreate = false
              · simp [hwc2]
              · simp [hwc2, hlt]
          | none =>
            simp only [hlast] at h1
            injection h1 with hA hB; subst hA; subst hB
            unfold handleEvent
            simp only [hname, hfile, hen]
            by_cases hwc2 : e2.isWrite = false ∧ e2.isCreate = false
            · simp [hwc2]
            · simp [hwc2, hlt]

/-- Concrete watcher for the C9 witness: one tracked file. -/
def fwW : FileWatcherState := newFileWatcher (fun f => if f = "a.csv" then some "base" else none)

/-- The state of `fwW` after accepting a write event for `a.csv` at time 0. -/
def fwW1 : FileWatcherState :=
  { fwW with lastChange := fun f => if f = "a.csv" then some 0 else fwW.lastChange f }

/-- A write event for the tracked file. -/
def eW : FsEvent := { name := "a.csv", isWrite := true, isCreate := false }

/-- C9 witness: the debounce theorem applied to a concrete watcher — the
first write at `t = 0` triggers a reload, the second write at `t = 1`
(within the 2 s window) is dropped. -/
theorem c9_witness :
    ((1 : ℤ) - 0 < fwW.debounce) ∧ handleEvent fwW1 eW 1 = (fwW1, none) :=
  ⟨of_decide_eq_true (by with_unfolding_all rfl),
   c9_debounce.2 fwW eW eW 0 1 fwW1 (some "base") rfl
     (of_decide_eq_true (by with_unfolding_all rfl)) rfl rfl⟩

/-! ## C7 — analyzer RTP bounds, feasibility and suggested RTP -/

/-- The analyzer's running minimum is a lower bound of the start value and of
every element. -/
theorem minFold_le (l : List ℚ) (a : ℚ) :
    l.foldl (fun m p => if p < m then p else m) a ≤ a ∧
      ∀ p ∈ l, l.foldl (fun m p => if p < m then p else m) a ≤ p := by
  induction l generalizing a with
  | nil => simp
  | cons x xs ih =>
    have hva : (if x < a then x else a) ≤ a := by
      split
      · exact le_of_lt (by assumption)
      · exact le_refl a
    have hvx : (if x < a then x else a) ≤ x := by
      split
      · exact le_refl x
      · exact le_of_not_lt (by assumption)
    simp only [List.foldl_cons]
    refine ⟨le_trans (ih _).1 hva, ?_⟩
    intro p hp
    rcases List.mem_cons.mp hp with rfl | hmem
    · exact le_trans (ih _).1 hvx
    · exact (ih _).2 p hmem

/-- The analyzer's running minimum is the start value or one of the
elements. -/
theorem minFold_mem (l : List ℚ) (a : ℚ) :
    l.foldl (fun m p => if p < m then p else m) a = a ∨
      l.foldl (fun m p => if p < m then p else m) a ∈ l := by
  induction l generalizing a with
  | nil => left; rfl
  | cons x xs ih =>
    simp only [List.foldl_cons]
    rcases ih (if x < a then x else a) with h | h
    · rw [h]
      by_cases hx : x < a
      · right; rw [if_pos hx]; exact List.mem_cons_self _ _
      · left; rw [if_neg hx]
    · right; exact List.mem_cons_of_mem _ h

/-- The analyzer's running maximum is an upper bound of the start value and
of every element. -/
theorem maxFold_ge (l : List ℚ) (a : ℚ) :
    a ≤ l.foldl (fun m p => if m < p then p else m) a ∧
      ∀ p ∈ l, p ≤ l.foldl (fun m p => if m < p then p else m) a := by
  induction l generalizing a with
  | nil => simp
  | cons x xs ih =>
    have hva : a ≤ (if a < x then x else a) := by
      split
      · exact le_of_lt (by assumption)
      · exact le_refl a
    have hvx : x ≤ (if a < x then x else a) := by
      split
      · exact le_refl x
      · exact le_of_not_lt (by assumption)
    simp only [List.foldl_cons]
    refine ⟨le_trans hva (ih _).1, ?_⟩
    intro p hp
    rcases List.mem_cons.mp hp with rfl | hmem
    · exact le_trans hvx (ih _).1
    · exact (ih _).2 p hmem

/-- The analyzer's running maximum is the start value or one of the
elements. -/
theorem maxFold_mem (l : List ℚ) (a : ℚ) :
    l.foldl (fun m p => if m < p then p else m) a = a ∨
      l.foldl (fun m p => if m < p then p else m) a ∈ l := by
  induction l generalizing a with
  | nil => left; rfl
  | cons x xs ih =>
    simp only [List.foldl_cons]
    rcases ih (if a < x then x else a) with h | h
    · rw [h]
      by_cases hx : a < x
      · right; rw [if_pos hx]; exact List.mem_cons_self _ _
      · left; rw [if_neg hx]
    · right; exact List.mem_cons_of_mem _ h

/-- C7: for every table with at least one winning outcome (all winning
payouts below `math.MaxFloat64`, as is the case for any real table), the
analysis reports `min_achievable_rtp` equal to the minimum winning normalized
payout and `max_achievable_rtp` equal to the maximum; `feasible` holds iff
`min ≤ target ≤ max`; and when infeasible the suggested RTP is `max·0.95` if
the target exceeds the maximum, otherwise `min·1.05`. -/
theorem c7_rtp_bounds :
    ∀ (t : LookupTable) (targetRTP : ℚ) (a : ModeAnalysis),
    winPayoutsOf t ≠ [] →
    (∀ p ∈ winPayoutsOf t, p < maxFloat64) →
    analyzeTable t targetRTP = Except.ok a →
    (a.minAchievableRTP ∈ winPayoutsOf t ∧
      ∀ p ∈ winPayoutsOf t, a.minAchievableRTP ≤ p) ∧
    (a.maxAchievableRTP ∈ winPayoutsOf t ∧
      ∀ p ∈ winPayoutsOf t, p ≤ a.maxAchievableRTP) ∧
    (a.feasible = true ↔
      (a.minAchievableRTP ≤ targetRTP ∧ targetRTP ≤ a.maxAchievableRTP)) ∧
    (a.feasible = false →
      a.suggestedRTP = if a.maxAchievableRTP < targetRTP
        then a.maxAchievableRTP * (95/100) else a.minAchievableRTP * (105/100)) := by
  intro t targetRTP a hne hbnd hok
  obtain ⟨p0, hp0mem⟩ := List.exists_mem_of_ne_nil _ hne
  have hwpos : ∀ p ∈ winPayoutsOf t, 0 < p := by
    intro p hp
    exact of_decide_eq_true (List.mem_filter.mp hp).2
  have hlen0 : ¬ t.outcomes.length = 0 := by
    intro h0
    have hnil : t.outcomes = [] := List.eq_nil_of_length_eq_zero h0
    apply hne
    unfold winPayoutsOf normPayouts
    rw [hnil]
    rfl
  have hwlen : ¬ (winPayoutsOf t).length = 0 := by
    intro h; exact hne (List.eq_nil_of_length_eq_zero h)
  unfold analyzeTable at hok
  rw [if_neg hlen0] at hok
  simp only [if_neg hwlen] at hok
  injection hok with hok
  have hmin_le : ∀ p ∈ winPayoutsOf t, minPayFold (winPayoutsOf t) ≤ p :=
    (minFold_le _ maxFloat64).2
  have hmin_ne : minPayFold (winPayoutsOf t) ≠ maxFloat64 := by
    intro heq
    have h1 := hmin_le p0 hp0mem
    rw [heq] at h1
    exact absurd (lt_of_le_of_lt h1 (hbnd p0 hp0mem)) (lt_irrefl _)
  have hmin_mem : minPayFold (winPayoutsOf t) ∈ winPayoutsOf t := by
    rcases minFold_mem (winPayoutsOf t) maxFloat64 with h | h
    · exact absurd h hmin_ne
    · exact h
  have hmax_ge : ∀ p ∈ winPayoutsOf t, p ≤ maxPayFold (winPayoutsOf t) :=
    (maxFold_ge _ 0).2
  have hmax_mem : maxPayFold (winPayoutsOf t) ∈ winPayoutsOf t := by
    rcases maxFold_mem (winPayoutsOf t) 0 with h | h
    · exfalso
      have h2 := hmax_ge p0 hp0mem
      have h3 : maxPayFold (winPayoutsOf t) = 0 := h
      rw [h3] at h2
      exact absurd (lt_of_lt_of_le (hwpos p0 hp0mem) h2) (lt_irrefl _)
    · exact h
  have hall : a =
      { totalOutcomes := t.outcomes.length
        minPayout := minPayFold (winPayoutsOf t)
        maxPayout := maxPayFold (winPayoutsOf t)
        minAchievableRTP := minPayFold (winPayoutsOf t)
        maxAchievableRTP := maxPayFold (winPayoutsOf t)
        feasible := decide (minPayFold (winPayoutsOf t) ≤ targetRTP ∧
          targetRTP ≤ maxPayFold (winPayoutsOf t))
        suggestedRTP :=
          if decide (minPayFold (winPayoutsOf t) ≤ targetRTP ∧
              targetRTP ≤ maxPayFold (winPayoutsOf t)) = true then 0
          else if maxPayFold (winPayoutsOf t) < targetRTP
            then maxPayFold (winPayoutsOf t) * (95/100)
            else minPayFold (winPayoutsOf t) * (105/100) } := by
    rw [← hok]
    show ({ totalOutcomes := t.outcomes.length
            minPayout := if minPayFold (winPayoutsOf t) = maxFloat64 then 0
              else minPayFold (winPayoutsOf t)
            maxPayout := maxPayFold (winPayoutsOf t)
            minAchievableRTP := if minPayFold (winPayoutsOf t) = maxFloat64 then 0
              else minPayFold (winPayoutsOf t)
            maxAchievableRTP := maxPayFold (winPayoutsOf t)
            feasible := decide ((if minPayFold (winPayoutsOf t) = maxFloat64 then 0
                else minPayFold (winPayoutsOf t)) ≤ targetRTP ∧
              targetRTP ≤ maxPayFold (winPayoutsOf t))
            suggestedRTP :=
              if decide ((if minPayFold (winPayoutsOf t) = maxFloat64 then 0
                  else minPayFold (winPayoutsOf t)) ≤ targetRTP ∧
                targetRTP ≤ maxPayFold (winPayoutsOf t)) = true then 0
              else if maxPayFold (winPayoutsOf t) < targetRTP
                then maxPayFold (winPayoutsOf t) * (95/100)
                else (if minPayFold (winPayoutsOf t) = maxFloat64 then 0
                  else minPayFold (winPayoutsOf t)) * (105/100) } : ModeAnalysis)
      = _
    rw [if_neg hmin_ne]
  subst hall
  refine ⟨⟨hmin_mem, hmin_le⟩, ⟨hmax_mem, hmax_ge⟩, ?_, ?_⟩
  · exact decide_eq_true_iff
  · intro hfeas
    simp only at hfeas ⊢
    rw [hfeas]
    simp

/-- Decidable equality for `Except`, for evaluating the embedding on
concrete inputs. -/
instance {e a : Type} [DecidableEq e] [DecidableEq a] : DecidableEq (Except e a)
  | .error x, .error y => decidable_of_iff (x = y) (by simp)
  | .ok x, .ok y => decidable_of_iff (x = y) (by simp)
  | .error _, .ok _ => isFalse (fun h => Except.noConfusion h)
  | .ok _, .error _ => isFalse (fun h => Except.noConfusion h)

/-- Concrete table for the C7 witness: winning payouts 0.2, 0.4, 0.6. -/
def tblC7 : LookupTable :=
  { cost := 1
    outcomes := [⟨1, 20, 1⟩, ⟨2, 40, 1⟩, ⟨3, 60, 1⟩] }

/-- The analysis of `tblC7` at target RTP 1 (infeasible, suggested
`0.6·0.95 = 0.57`). -/
def aC7 : ModeAnalysis :=
  { totalOutcomes := 3
    minPayout := 1/5
    maxPayout := 3/5
    minAchievableRTP := 1/5
    maxAchievableRTP := 3/5
    feasible := false
    suggestedRTP := 57/100 }

set_option maxRecDepth 40000 in
/-- C7 witness: the bounds theorem applied to `tblC7` at target 1. -/
theorem c7_witness :
    winPayoutsOf tblC7 ≠ [] ∧
    analyzeTable tblC7 1 = Except.ok aC7 ∧
    aC7.minAchievableRTP ∈ winPayoutsOf tblC7 ∧
    (aC7.feasible = false →
      aC7.suggestedRTP = if aC7.maxAchievableRTP < 1
        then aC7.maxAchievableRTP * (95/100) else aC7.minAchievableRTP * (105/100)) :=
  ⟨of_decide_eq_true (by with_unfolding_all rfl),
   of_decide_eq_true (by with_unfolding_all rfl),
   (c7_rtp_bounds tblC7 1 aC7 (of_decide_eq_true (by with_unfolding_all rfl))
     (of_decide_eq_true (by with_unfolding_all rfl))
     (of_decide_eq_true (by with_unfolding_all rfl))).1.1,
   (c7_rtp_bounds tblC7 1 aC7 (of_decide_eq_true (by with_unfolding_all rfl))
     (of_decide_eq_true (by with_unfolding_all rfl))
     (of_decide_eq_true (by with_unfolding_all rfl))).2.2.2⟩

/-! ## C2 — the inverse-payout rule of the target-probability solver -/

/-- `getD` through a `map`, for an in-range index. -/
theorem getD_map_lt (f : ℚ → ℚ) (l : List ℚ) (j : ℕ) (hj : j < l.length) :
    (l.map f).getD j 0 = f (l.getD j 0) := by
  rw [List.getD_eq_getElem _ _ (by simpa using hj), List.getD_eq_getElem _ _ hj,
    List.getElem_map]

/-- A list of nonnegative rationals with a positive member has positive
sum. -/
theorem sum_pos_of_mem_pos : ∀ (l : List ℚ), (∀ x ∈ l, 0 ≤ x) →
    ∀ x ∈ l, 0 < x → 0 < l.sum := by
  intro l
  induction l with
  | nil => intro _ x hx; simp at hx
  | cons y ys ih =>
    intro h0 x hx hxpos
    simp only [List.sum_cons]
    rcases List.mem_cons.mp hx with rfl | hmem
    · have h2 : 0 ≤ ys.sum :=
        List.sum_nonneg (fun z hz => h0 z (List.mem_cons_of_mem _ hz))
      linarith
    · have hy : 0 ≤ y := h0 y (List.mem_cons_self _ _)
      have h2 := ih (fun z hz => h0 z (List.mem_cons_of_mem _ hz)) x hmem hxpos
      linarith

/-- Summing `prob · payout` over `probs = payouts.map f` zipped with
`payouts`. -/
theorem map_zip_self_sum (f : ℚ → ℚ) : ∀ (l : List ℚ),
    (((l.map f).zip l).map (fun pq => pq.1 * pq.2)).sum
      = (l.map (fun p => f p * p)).sum := by
  intro l
  induction l with
  | nil => rfl
  | cons y ys ih => simp only [List.map_cons, List.zip_cons_cons, List.sum_cons, ih]

/-- Pulling a constant factor out of a mapped sum. -/
theorem sum_map_mul_const {α : Type} (c : ℚ) (f : α → ℚ) : ∀ (l : List α),
    (l.map (fun x => c * f x)).sum = c * (l.map f).sum := by
  intro l
  induction l with
  | nil => simp
  | cons y ys ih =>
    simp only [List.map_cons, List.sum_cons, ih]
    ring

/-- For `p > 0`: `p^(-e) · p = p^(1-e)`. -/
theorem zpow_neg_mul_self {p : ℚ} (hp : 0 < p) (e : ℤ) :
    p ^ (-e) * p = p ^ (1 - e) := by
  have h1 : p ^ ((1 : ℤ) - e) = p ^ (1 : ℤ) * p ^ (-e) := by
    rw [sub_eq_add_neg, zpow_add₀ (ne_of_gt hp)]
  rw [h1, zpow_one]
  ring

/-- C2: in the solver's second pass, when `remaining_rtp > 0` and the auto
buckets are nonempty with positive payouts, every auto-bucket outcome `j`
receives `prob_j = remaining · p_j^(-e) / Σ_k p_k^(1-e)` (with `e` the
bucket's effective exponent, defaulting to 1 when unset), each auto bucket's
`target_prob` is the sum of its per-outcome probabilities, and the
contributions `prob_j · p_j`, summed over all auto-bucket outcomes, equal
`remaining_rtp` exactly. -/
theorem c2_inverse_payout_rule :
    ∀ (cfg : BucketOptimizerConfig) (as : List bucketAssignment),
    (∀ b ∈ as.map (pass1Update cfg.targetRTP), b.isAuto = true →
      b.outcomeIndices ≠ [] ∧ ∀ p ∈ b.payouts, 0 < p) →
    (∃ b ∈ as.map (pass1Update cfg.targetRTP), b.isAuto = true ∧ b.payouts ≠ []) →
    0 < remainingRTPOf cfg.targetRTP as →
    (∀ b ∈ (calculateTargetProbabilities cfg as).1, b.isAuto = true →
      (∀ j < b.payouts.length,
        b.outcomeProbs.getD j 0 =
          remainingRTPOf cfg.targetRTP as *
            (b.payouts.getD j 0) ^ (-effExponent b.config) /
            sumPow1MinusExp (as.map (pass1Update cfg.targetRTP))) ∧
      b.targetProb = b.outcomeProbs.sum) ∧
    (((calculateTargetProbabilities cfg as).1.filter (fun b => b.isAuto)).map
        (fun b => ((b.outcomeProbs.zip b.payouts).map (fun pq => pq.1 * pq.2)).sum)).sum
      = remainingRTPOf cfg.targetRTP as := by
  intro cfg as hAuto hEx hRem
  have hAct : ∀ b ∈ as.map (pass1Update cfg.targetRTP), b.isAuto = true →
      isActiveAuto b = true := by
    intro b hb hA
    unfold isActiveAuto
    rw [hA]
    simp only [Bool.true_and, decide_eq_true_eq]
    exact (hAuto b hb hA).1
  have hAny : (as.map (pass1Update cfg.targetRTP)).any isActiveAuto = true := by
    obtain ⟨b, hb, hA, -⟩ := hEx
    exact List.any_eq_true.mpr ⟨b, hb, hAct b hb hA⟩
  have hRem2 : 0 < max (cfg.targetRTP - usedRTPOf cfg.targetRTP as) 0 := hRem
  have hCalc : (calculateTargetProbabilities cfg as).1 =
      (as.map (pass1Update cfg.targetRTP)).map
        (pass2Update (remainingRTPOf cfg.targetRTP as)
          (sumPow1MinusExp (as.map (pass1Update cfg.targetRTP)))) := by
    unfold calculateTargetProbabilities
    simp only [hAny, hRem2, and_self, if_pos, true_and]
    rfl
  -- positivity of the global power sum
  have hInnerNonneg : ∀ b ∈ (as.map (pass1Update cfg.targetRTP)).filter isActiveAuto,
      0 ≤ ((b.payouts.filter (fun p => 0 < p)).map
        (fun p => p ^ (1 - effExponent b.config))).sum := by
    intro b hb
    apply List.sum_nonneg
    intro z hz
    obtain ⟨p, hp, rfl⟩ := List.mem_map.mp hz
    have hppos : 0 < p := of_decide_eq_true (List.mem_filter.mp hp).2
    exact le_of_lt (zpow_pos hppos _)
  have hDpos : 0 < sumPow1MinusExp (as.map (pass1Update cfg.targetRTP)) := by
    obtain ⟨b, hb, hA, hpne⟩ := hEx
    have hbf : b ∈ (as.map (pass1Update cfg.targetRTP)).filter isActiveAuto :=
      List.mem_filter.mpr ⟨hb, hAct b hb hA⟩
    have hbpos : ∀ p ∈ b.payouts, 0 < p := (hAuto b hb hA).2
    have hfe : b.payouts.filter (fun p => 0 < p) = b.payouts := by
      apply List.filter_eq_self.mpr
      intro p hp
      exact decide_eq_true (hbpos p hp)
    have hin : 0 < ((b.payouts.filter (fun p => 0 < p)).map
        (fun p => p ^ (1 - effExponent b.config))).sum := by
      rw [hfe]
      apply List.sum_pos
      · intro z hz
        obtain ⟨p, hp, rfl⟩ := List.mem_map.mp hz
        exact zpow_pos (hbpos p hp) _
      · intro hzn
        rw [List.map_eq_nil_iff] at hzn
        exact hpne hzn
    unfold sumPow1MinusExp
    apply sum_pos_of_mem_pos _ ?_ _ ?_ hin
    · intro x hx
      obtain ⟨b2, hb2, rfl⟩ := List.mem_map.mp hx
      exact hInnerNonneg b2 hb2
    · exact List.mem_map.mpr ⟨b, hbf, rfl⟩
  constructor
  · -- per-outcome probability formula and the target probability
    intro b hb hbA
    rw [hCalc] at hb
    obtain ⟨b0, hb0, rfl⟩ := List.mem_map.mp hb
    have hb0A : b0.isAuto = true := by
      unfold pass2Update at hbA
      by_cases hAct0 : isActiveAuto b0 = true
      · rw [if_pos hAct0] at hbA; exact hbA
      · rw [if_neg hAct0] at hbA; exact hbA
    have hAct0 : isActiveAuto b0 = true := hAct b0 hb0 hb0A
    have hbpos : ∀ p ∈ b0.payouts, 0 < p := (hAuto b0 hb0 hb0A).2
    unfold pass2Update
    rw [if_pos hAct0]
    dsimp only
    refine ⟨?_, rfl⟩
    intro j hj
    rw [getD_map_lt _ _ _ hj]
    have hmem : b0.payouts.getD j 0 ∈ b0.payouts := by
      rw [List.getD_eq_getElem _ _ hj]
      exact List.getElem_mem _
    rw [if_pos ⟨hbpos _ hmem, hDpos⟩]
  · -- total auto contribution equals remainingRTP
    rw [hCalc]
    rw [List.filter_map]
    have hfeq : (as.map (pass1Update cfg.targetRTP)).filter
        ((fun b => b.isAuto) ∘ pass2Update (remainingRTPOf cfg.targetRTP as)
          (sumPow1MinusExp (as.map (pass1Update cfg.targetRTP))))
        = (as.map (pass1Update cfg.targetRTP)).filter isActiveAuto := by
      apply List.filter_congr
      intro b0 hb0
      simp only [Function.comp_apply]
      by_cases hAct0 : isActiveAuto b0 = true
      · have hA : b0.isAuto = true := ((Bool.and_eq_true _ _).mp hAct0).1
        unfold pass2Update
        rw [if_pos hAct0]
        dsimp only
        rw [hA, hAct0]
      · have hA : b0.isAuto = false := by
          by_cases hA2 : b0.isAuto = true
          · exact absurd (hAct b0 hb0 hA2) hAct0
          · exact Bool.eq_false_iff.mpr hA2
        have hActF : isActiveAuto b0 = false := Bool.eq_false_iff.mpr hAct0
        unfold pass2Update
        rw [if_neg hAct0]
        rw [hA, hActF]
    rw [hfeq, List.map_map]
    have hmapeq : ∀ b0 ∈ (as.map (pass1Update cfg.targetRTP)).filter isActiveAuto,
        ((fun b => ((b.outcomeProbs.zip b.payouts).map (fun pq => pq.1 * pq.2)).sum) ∘
          pass2Update (remainingRTPOf cfg.targetRTP as)
            (sumPow1MinusExp (as.map (pass1Update cfg.targetRTP)))) b0
        = (remainingRTPOf cfg.targetRTP as /
            sumPow1MinusExp (as.map (pass1Update cfg.targetRTP))) *
          ((b0.payouts.filter (fun p => 0 < p)).map
            (fun p => p ^ (1 - effExponent b0.config))).sum := by
      intro b0 hb0f
      have hb0 : b0 ∈ as.map (pass1Update cfg.targetRTP) := (List.mem_filter.mp hb0f).1
      have hAct0 : isActiveAuto b0 = true := (List.mem_filter.mp hb0f).2
      have hb0A : b0.isAuto = true := ((Bool.and_eq_true _ _).mp hAct0).1
      have hbpos : ∀ p ∈ b0.payouts, 0 < p := (hAuto b0 hb0 hb0A).2
      have hfe : b0.payouts.filter (fun p => 0 < p) = b0.payouts := by
        apply List.filter_eq_self.mpr
        intro p hp
        exact decide_eq_true (hbpos p hp)
      simp only [Function.comp_apply]
      unfold pass2Update
      rw [if_pos hAct0]
      dsimp only
      rw [map_zip_self_sum]
      rw [hfe]
      have hptw : ∀ p ∈ b0.payouts,
          (if 0 < p ∧ 0 < sumPow1MinusExp (as.map (pass1Update cfg.targetRTP)) then
            remainingRTPOf cfg.targetRTP as * p ^ (-effExponent b0.config) /
              sumPow1MinusExp (as.map (pass1Update cfg.targetRTP))
          else 0) * p
          = (remainingRTPOf cfg.targetRTP as /
              sumPow1MinusExp (as.map (pass1Update cfg.targetRTP))) *
            p ^ (1 - effExponent b0.config) := by
        intro p hp
        rw [if_pos ⟨hbpos p hp, hDpos⟩]
        rw [← zpow_neg_mul_self (hbpos p hp) (effExponent b0.config)]
        ring
      rw [List.map_congr_left hptw]
      exact sum_map_mul_const _ _ _
    rw [List.map_congr_left hmapeq]
    rw [sum_map_mul_const (remainingRTPOf cfg.targetRTP as /
          sumPow1MinusExp (as.map (pass1Update cfg.targetRTP)))
        (fun b0 : bucketAssignment => ((b0.payouts.filter (fun p => 0 < p)).map
          (fun p => p ^ (1 - effExponent b0.config))).sum)]
    have hDdef : ((List.filter isActiveAuto (as.map (pass1Update cfg.targetRTP))).map
        (fun b0 => ((b0.payouts.filter (fun p => 0 < p)).map
          (fun p => p ^ (1 - effExponent b0.config))).sum)).sum
        = sumPow1MinusExp (as.map (pass1Update cfg.targetRTP)) := rfl
    rw [hDdef]
    rw [div_mul_cancel₀ _ (ne_of_gt hDpos)]

/-! ## C3 / C4 — the loss-weight closed form and its rounding

Toolkit for reading single entries off the write-list semantics of the
weight materializer. -/

/-- Array stores after earlier stores: `foldl` over an append. -/
theorem applyWrites_append (a b : List (ℕ × ℕ)) (w : ℕ → ℕ) :
    applyWrites (a ++ b) w = applyWrites b (applyWrites a w) :=
  List.foldl_append _ _ _ _

/-- An index no store touches keeps its value. -/
theorem applyWrites_not_mem (ps : List (ℕ × ℕ)) (w : ℕ → ℕ) (i : ℕ)
    (h : i ∉ ps.map Prod.fst) : applyWrites ps w i = w i := by
  induction ps generalizing w with
  | nil => rfl
  | cons kv rest ih =>
    simp only [List.map_cons, List.mem_cons] at h
    push_neg at h
    show applyWrites rest (override w kv.1 kv.2) i = w i
    rw [ih _ h.2]
    unfold override
    rw [if_neg h.1]

/-- If every store writes the same value `v`, a stored index ends at `v`. -/
theorem applyWrites_const (ps : List (ℕ × ℕ)) (w : ℕ → ℕ) (v : ℕ) (i : ℕ)
    (hall : ∀ kv ∈ ps, kv.2 = v) (hmem : i ∈ ps.map Prod.fst) :
    applyWrites ps w i = v := by
  induction ps generalizing w with
  | nil => simp at hmem
  | cons kv rest ih =>
    show applyWrites rest (override w kv.1 kv.2) i = v
    simp only [List.map_cons, List.mem_cons] at hmem
    by_cases hr : i ∈ rest.map Prod.fst
    · exact ih _ (fun x hx => hall x (List.mem_cons_of_mem _ hx)) hr
    · rcases hmem with heq | hr2
      · rw [applyWrites_not_mem _ _ _ hr]
        unfold override
        rw [if_pos heq]
        exact hall kv (List.mem_cons_self _ _)
      · exact absurd hr2 hr

/-- With pairwise distinct keys, a stored index ends at its stored value. -/
theorem applyWrites_nodup (ps : List (ℕ × ℕ)) (w : ℕ → ℕ) (i v : ℕ)
    (hnd : (ps.map Prod.fst).Nodup) (hmem : (i, v) ∈ ps) :
    applyWrites ps w i = v := by
  induction ps generalizing w with
  | nil => simp at hmem
  | cons kv rest ih =>
    show applyWrites rest (override w kv.1 kv.2) i = v
    simp only [List.map_cons, List.nodup_cons] at hnd
    rcases List.mem_cons.mp hmem with heq | hmem2
    · have hk1 : kv.1 = i := by rw [← heq]
      have hk2 : kv.2 = v := by rw [← heq]
      have hrest : i ∉ rest.map Prod.fst := by
        rw [← hk1]; exact hnd.1
      rw [applyWrites_not_mem _ _ _ hrest]
      unfold override
      rw [if_pos hk1.symm]
      exact hk2
    · exact ih _ hnd.2 hmem2

/-- Reading an entry of a materialized weight vector. -/
theorem toListN_getD (f : ℕ → ℕ) (n i : ℕ) (hi : i < n) :
    ((List.range n).map f).getD i 0 = f i := by
  rw [List.getD_eq_getElem _ _ (by simpa using hi), List.getElem_map,
    List.getElem_range]

/-- After the mid phase, every voided index holds weight 0 (the
`weights[idx] = 0` loop runs last). -/
theorem midWeightsFun_voided (minW : ℕ) (voided : List ℕ)
    (as : List bucketAssignment) (i : ℕ) (hv : i ∈ voided) :
    midWeightsFun minW voided as i = 0 := by
  unfold midWeightsFun
  rw [applyWrites_append]
  apply applyWrites_const
  · intro kv hkv
    obtain ⟨x, hx, rfl⟩ := List.mem_map.mp hkv
    rfl
  · rw [List.map_map]
    exact List.mem_map.mpr ⟨i, hv, rfl⟩

/-- A loss index of the materialized vector holds exactly
`lossWeightPerOutcome`. -/
theorem calcWeights_loss_value (cfg : BucketOptimizerConfig) (payouts : List ℚ)
    (as : List bucketAssignment) (loss : List ℕ) (voided : List ℕ)
    (hne : loss ≠ []) (i : ℕ) (hi : i ∈ loss) (hir : i < payouts.length) :
    (calculateWeightsWithVoiding cfg payouts as loss voided).getD i 0
      = lossWeightPerOutcomeOf cfg payouts (midWeightsFun cfg.minWeight voided as)
          loss.length := by
  unfold calculateWeightsWithVoiding
  rw [toListN_getD _ _ _ hir]
  have hlen : ¬ loss.length = 0 := by
    intro h; exact hne (List.length_eq_zero.mp h)
  rw [if_neg hlen]
  apply applyWrites_const
  · intro kv hkv
    obtain ⟨x, hx, rfl⟩ := List.mem_map.mp hkv
    rfl
  · rw [List.map_map]
    exact List.mem_map.mpr ⟨i, hi, rfl⟩

/-- A winning index of the materialized vector holds its mid-phase weight:
the loss loop only touches loss indices. -/
theorem calcWeights_win_value (cfg : BucketOptimizerConfig) (payouts : List ℚ)
    (as : List bucketAssignment) (loss : List ℕ) (voided : List ℕ)
    (hlossP : ∀ j ∈ loss, payouts.getD j 0 ≤ 0) (i : ℕ) (hir : i < payouts.length)
    (hpos : 0 < payouts.getD i 0) :
    (calculateWeightsWithVoiding cfg payouts as loss voided).getD i 0
      = midWeightsFun cfg.minWeight voided as i := by
  unfold calculateWeightsWithVoiding
  rw [toListN_getD _ _ _ hir]
  by_cases hl : loss.length = 0
  · rw [if_pos hl]
  · rw [if_neg hl]
    apply applyWrites_not_mem
    intro hmem
    rw [List.map_map] at hmem
    obtain ⟨j, hj, hji⟩ := List.mem_map.mp hmem
    have hj2 : j = i := hji
    rw [hj2] at hj
    exact absurd hpos (not_lt.mpr (hlossP i hj))

/-- The spec's `S`: `Σ w_i · p_i` over winning (`p_i > 0`), non-voided
outcomes, read off a finished weight vector. -/
def winNonVoidedPayoutSum (payouts : List ℚ) (voided : List ℕ) (w : List ℕ) : ℚ :=
  ((List.range payouts.length).map
    (fun i => if 0 < payouts.getD i 0 ∧ i ∉ voided then
      (w.getD i 0 : ℚ) * payouts.getD i 0 else 0)).sum

/-- The spec's `W`: `Σ w_i` over the same outcomes. -/
def winNonVoidedWeightSum (payouts : List ℚ) (voided : List ℕ) (w : List ℕ) : ℚ :=
  ((List.range payouts.length).map
    (fun i => if 0 < payouts.getD i 0 ∧ i ∉ voided then (w.getD i 0 : ℚ) else 0)).sum

/-- The code's `weightedPayoutSum`/`totalWinWeight` (filter `w > 0`) agree
with the spec's `S`/`W` (filter non-voided) on the finished vector: voided
indices hold 0, and zero-weight terms vanish from both sums. -/
theorem winSums_agree (cfg : BucketOptimizerConfig) (payouts : List ℚ)
    (as : List bucketAssignment) (loss : List ℕ) (voided : List ℕ)
    (hlossP : ∀ j ∈ loss, payouts.getD j 0 ≤ 0) :
    winNonVoidedPayoutSum payouts voided
        (calculateWeightsWithVoiding cfg payouts as loss voided)
      = weightedPayoutSumOf payouts (midWeightsFun cfg.minWeight voided as) ∧
    winNonVoidedWeightSum payouts voided
        (calculateWeightsWithVoiding cfg payouts as loss voided)
      = ((totalWinWeightOf payouts (midWeightsFun cfg.minWeight voided as) : ℕ) : ℚ) := by
  constructor
  · unfold winNonVoidedPayoutSum weightedPayoutSumOf
    apply congrArg
    apply List.map_congr_left
    intro i hird
    have hir : i < payouts.length := List.mem_range.mp hird
    by_cases hpos : 0 < payouts.getD i 0
    · rw [calcWeights_win_value cfg payouts as loss voided hlossP i hir hpos]
      by_cases hv : i ∈ voided
      · rw [if_neg (by rintro ⟨-, hnv⟩; exact hnv hv)]
        rw [if_neg (by
          rintro ⟨-, hw⟩
          rw [midWeightsFun_voided _ _ _ _ hv] at hw
          exact absurd hw (lt_irrefl 0))]
      · by_cases hw : 0 < midWeightsFun cfg.minWeight voided as i
        · rw [if_pos ⟨hpos, hv⟩, if_pos ⟨hpos, hw⟩]
        · have hw0 : midWeightsFun cfg.minWeight voided as i = 0 :=
            Nat.eq_zero_of_not_pos hw
          rw [if_pos ⟨hpos, hv⟩, if_neg (by rintro ⟨-, hw2⟩; exact hw hw2), hw0]
          simp
    · rw [if_neg (by rintro ⟨hp, -⟩; exact hpos hp),
        if_neg (by rintro ⟨hp, -⟩; exact hpos hp)]
  · unfold winNonVoidedWeightSum totalWinWeightOf
    rw [Nat.cast_list_sum, List.map_map]
    apply congrArg
    apply List.map_congr_left
    intro i hird
    have hir : i < payouts.length := List.mem_range.mp hird
    simp only [Function.comp_apply]
    by_cases hpos : 0 < payouts.getD i 0
    · rw [calcWeights_win_value cfg payouts as loss voided hlossP i hir hpos]
      by_cases hv : i ∈ voided
      · rw [if_neg (by rintro ⟨-, hnv⟩; exact hnv hv)]
        rw [if_neg (by
          rintro ⟨-, hw⟩
          rw [midWeightsFun_voided _ _ _ _ hv] at hw
          exact absurd hw (lt_irrefl 0))]
        simp
      · by_cases hw : 0 < midWeightsFun cfg.minWeight voided as i
        · rw [if_pos ⟨hpos, hv⟩, if_pos ⟨hpos, hw⟩]
        · have hw0 : midWeightsFun cfg.minWeight voided as i = 0 :=
            Nat.eq_zero_of_not_pos hw
          rw [if_pos ⟨hpos, hv⟩, if_neg (by rintro ⟨-, hw2⟩; exact hw hw2), hw0]
    · rw [if_neg (by rintro ⟨hp, -⟩; exact hpos hp),
        if_neg (by rintro ⟨hp, -⟩; exact hpos hp)]
      simp

/-- C3: on the weight materializer's output, with `S = Σ w_i·p_i` and
`W = Σ w_i` over winning non-voided outcomes, every loss outcome receives
`max(minWeight, round((max(S/targetRTP − W, minWeight)) / |loss|))` — the
required total loss weight `L = S/target_rtp − W` clamped up to `min_weight`,
distributed evenly with `round` (Go `math.Round`) and floored at
`min_weight`. -/
theorem c3_loss_weight_closed_form :
    ∀ (cfg : BucketOptimizerConfig) (payouts : List ℚ) (as : List bucketAssignment)
      (loss : List ℕ) (voided : List ℕ),
    loss ≠ [] →
    (∀ j ∈ loss, payouts.getD j 0 ≤ 0) →
    ∀ i ∈ loss, i < payouts.length →
      (calculateWeightsWithVoiding cfg payouts as loss voided).getD i 0
        = max cfg.minWeight
            (mathRound
              (max (winNonVoidedPayoutSum payouts voided
                      (calculateWeightsWithVoiding cfg payouts as loss voided) /
                    cfg.targetRTP -
                    winNonVoidedWeightSum payouts voided
                      (calculateWeightsWithVoiding cfg payouts as loss voided))
                   (cfg.minWeight : ℚ)
                / (loss.length : ℚ))).toNat := by
  intro cfg payouts as loss voided hne hlossP i hi hir
  obtain ⟨hS, hW⟩ := winSums_agree cfg payouts as loss voided hlossP
  rw [calcWeights_loss_value cfg payouts as loss voided hne i hi hir]
  rw [hS, hW]
  unfold lossWeightPerOutcomeOf requiredLossWeightOf
  have hif :
      (if weightedPayoutSumOf payouts (midWeightsFun cfg.minWeight voided as) /
            cfg.targetRTP -
            ((totalWinWeightOf payouts (midWeightsFun cfg.minWeight voided as) : ℕ) : ℚ)
          < (cfg.minWeight : ℚ) then (cfg.minWeight : ℚ)
        else weightedPayoutSumOf payouts (midWeightsFun cfg.minWeight voided as) /
            cfg.targetRTP -
            ((totalWinWeightOf payouts (midWeightsFun cfg.minWeight voided as) : ℕ) : ℚ))
      = max (weightedPayoutSumOf payouts (midWeightsFun cfg.minWeight voided as) /
            cfg.targetRTP -
            ((totalWinWeightOf payouts (midWeightsFun cfg.minWeight voided as) : ℕ) : ℚ))
          (cfg.minWeight : ℚ) := by
    rcases le_or_lt (cfg.minWeight : ℚ)
        (weightedPayoutSumOf payouts (midWeightsFun cfg.minWeight voided as) /
          cfg.targetRTP -
          ((totalWinWeightOf payouts (midWeightsFun cfg.minWeight voided as) : ℕ) : ℚ))
        with hle | hlt
    · rw [if_neg (not_lt.mpr hle), max_eq_left hle]
    · rw [if_pos hlt, max_eq_right (le_of_lt hlt)]
  rw [hif]

/-- Concrete config for the C3 witness. -/
def cfgC3 : BucketOptimizerConfig := { targetRTP := 1, minWeight := 1 }

/-- Concrete assignments for the C3 witness: one frequency bucket holding
outcome 0 (payout 4) with `targetProb = 0`, so its weight floors to 1. -/
def asC3 : List bucketAssignment :=
  [{ config := { name := "b", type := .frequency }
     outcomeIndices := [0]
     payouts := [4] }]

/-- C3 witness: payouts `[4,0,0]`, loss indices `[1,2]`: the win weight is 1,
`L = 4/1 − 1 = 3`, and each loss outcome gets `round(3/2) = 2`. -/
theorem c3_witness :
    ([1, 2] : List ℕ) ≠ [] ∧
    calculateWeightsWithVoiding cfgC3 [4, 0, 0] asC3 [1, 2] [] = [1, 2, 2] ∧
    (calculateWeightsWithVoiding cfgC3 [4, 0, 0] asC3 [1, 2] []).getD 1 0
      = max cfgC3.minWeight
          (mathRound
            (max (winNonVoidedPayoutSum [4, 0, 0] []
                    (calculateWeightsWithVoiding cfgC3 [4, 0, 0] asC3 [1, 2] []) /
                  cfgC3.targetRTP -
                  winNonVoidedWeightSum [4, 0, 0] []
                    (calculateWeightsWithVoiding cfgC3 [4, 0, 0] asC3 [1, 2] []))
                 (cfgC3.minWeight : ℚ)
              / (([1, 2] : List ℕ).length : ℚ))).toNat :=
  ⟨of_decide_eq_true (by with_unfolding_all rfl),
   of_decide_eq_true (by with_unfolding_all rfl),
   c3_loss_weight_closed_form cfgC3 [4, 0, 0] asC3 [1, 2] []
     (of_decide_eq_true (by with_unfolding_all rfl))
     (of_decide_eq_true (by with_unfolding_all rfl))
     1 (of_decide_eq_true (by with_unfolding_all rfl))
     (of_decide_eq_true (by with_unfolding_all rfl))⟩

/-- Concrete config for the C4 counterexample. -/
def cfgC4 : BucketOptimizerConfig := { targetRTP := 1, minWeight := 1 }

/-- Concrete assignments for the C4 counterexample: one frequency bucket
holding outcome 0 (payout 6) with `targetProb = 0`, so its weight floors
to 1. -/
def asC4 : List bucketAssignment :=
  [{ config := { name := "b", type := .frequency }
     outcomeIndices := [0]
     payouts := [6] }]

/-- C4 counterexample: with win weight 1 on payout 6, target 1 and two loss
outcomes, `L/|loss| = 5/2` exactly; the code's `math.Round` (half away from
zero) gives per-loss weight 3, while round-half-to-even would give 2 — so the
loss distribution does *not* use banker's rounding. -/
theorem c4_counterexample :
    calculateWeightsWithVoiding cfgC4 [6, 0, 0] asC4 [1, 2] [] = [1, 3, 3] ∧
    mathRound (5/2) = 3 ∧
    roundHalfToEven (5/2) = 2 ∧
    (3 : ℕ) ≠ 2 :=
  of_decide_eq_true (by with_unfolding_all rfl)

/-- C4 (amended): the per-loss-outcome weight `L / |loss|` is rounded with Go
`math.Round` — round half *away from zero*, which on the nonnegative values
arising here is `⌊x + 1/2⌋` — before the `min_weight` floor is applied (not
round-half-to-even). -/
theorem c4_amended_rounding :
    ∀ (cfg : BucketOptimizerConfig) (payouts : List ℚ) (as : List bucketAssignment)
      (loss : List ℕ) (voided : List ℕ),
    loss ≠ [] →
    (∀ j ∈ loss, payouts.getD j 0 ≤ 0) →
    0 ≤ (cfg.minWeight : ℚ) →
    ∀ i ∈ loss, i < payouts.length →
      (calculateWeightsWithVoiding cfg payouts as loss voided).getD i 0
        = max cfg.minWeight
            (⌊max (winNonVoidedPayoutSum payouts voided
                      (calculateWeightsWithVoiding cfg payouts as loss voided) /
                    cfg.targetRTP -
                    winNonVoidedWeightSum payouts voided
                      (calculateWeightsWithVoiding cfg payouts as loss voided))
                   (cfg.minWeight : ℚ)
                / (loss.length : ℚ) + 1/2⌋).toNat := by
  intro cfg payouts as loss voided hne hlossP hmw i hi hir
  rw [c3_loss_weight_closed_form cfg payouts as loss voided hne hlossP i hi hir]
  congr 2
  unfold mathRound
  have hnum : 0 ≤ max (winNonVoidedPayoutSum payouts voided
        (calculateWeightsWithVoiding cfg payouts as loss voided) /
      cfg.targetRTP -
      winNonVoidedWeightSum payouts voided
        (calculateWeightsWithVoiding cfg payouts as loss voided))
      (cfg.minWeight : ℚ) := le_trans hmw (le_max_right _ _)
  have hden : (0 : ℚ) ≤ (loss.length : ℚ) := Nat.cast_nonneg _
  rw [if_pos (div_nonneg hnum hden)]

/-- C4 amended-theorem witness: the rounding formula evaluated on the
counterexample input (per-loss weight `⌊5/2 + 1/2⌋ = 3`). -/
theorem c4_witness :
    ([1, 2] : List ℕ) ≠ [] ∧
    (calculateWeightsWithVoiding cfgC4 [6, 0, 0] asC4 [1, 2] []).getD 1 0
      = max cfgC4.minWeight
          (⌊max (winNonVoidedPayoutSum [6, 0, 0] []
                    (calculateWeightsWithVoiding cfgC4 [6, 0, 0] asC4 [1, 2] []) /
                  cfgC4.targetRTP -
                  winNonVoidedWeightSum [6, 0, 0] []
                    (calculateWeightsWithVoiding cfgC4 [6, 0, 0] asC4 [1, 2] []))
                 (cfgC4.minWeight : ℚ)
              / (([1, 2] : List ℕ).length : ℚ) + 1/2⌋).toNat :=
  ⟨of_decide_eq_true (by with_unfolding_all rfl),
   c4_amended_rounding cfgC4 [6, 0, 0] asC4 [1, 2] []
     (of_decide_eq_true (by with_unfolding_all rfl))
     (of_decide_eq_true (by with_unfolding_all rfl))
     (of_decide_eq_true (by with_unfolding_all rfl))
     1 (of_decide_eq_true (by with_unfolding_all rfl))
     (of_decide_eq_true (by with_unfolding_all rfl))⟩

/-! ## C6 — bucket assignment covers every winning outcome -/

/-- Characterization of `find?` over `List.range`: it returns the least index
below `n` satisfying the predicate. -/
theorem find?_range_some (p : ℕ → Bool) : ∀ (n j : ℕ),
    (List.range n).find? p = some j ↔
      (j < n ∧ p j = true ∧ ∀ k < j, p k = false) := by
  intro n
  induction n with
  | zero =>
    intro j
    simp [List.range_zero]
  | succ m ih =>
    intro j
    rw [List.range_succ, List.find?_append]
    constructor
    · intro h
      cases hm : (List.range m).find? p with
      | some j0 =>
        rw [hm] at h
        have h2 : some j0 = some j := h
        injection h2 with h2
        subst h2
        obtain ⟨hj, hp, hmin⟩ := (ih j0).mp hm
        exact ⟨Nat.lt_succ_of_lt hj, hp, hmin⟩
      | none =>
        rw [hm, Option.none_or] at h
        have hall := List.find?_eq_none.mp hm
        by_cases hpm : p m = true
        · rw [List.find?_cons_of_pos _ hpm] at h
          injection h with h
          subst h
          refine ⟨Nat.lt_succ_self m, hpm, ?_⟩
          intro k hk
          have := hall k (List.mem_range.mpr hk)
          exact Bool.eq_false_iff.mpr this
        · rw [List.find?_cons_of_neg _ (by simpa using hpm)] at h
          cases h
    · rintro ⟨hj, hp, hmin⟩
      rcases Nat.lt_succ_iff_lt_or_eq.mp hj with hjlt | rfl
      · rw [(ih j).mpr ⟨hjlt, hp, hmin⟩]
        rfl
      · have hm : (List.range j).find? p = none := by
          apply List.find?_eq_none.mpr
          intro k hk
          rw [hmin k (List.mem_range.mp hk)]
          simp
        rw [hm, Option.none_or, List.find?_cons_of_pos _ hp]

/-- Membership in `bucketIndicesFor`: outcome `i` is in bucket `j` iff it is
a winning outcome whose payout is routed to `j`. -/
theorem mem_bucketIndicesFor (cfgs : List BucketConfig) (payouts : List ℚ)
    (j i : ℕ) :
    i ∈ bucketIndicesFor cfgs payouts j ↔
      (i < payouts.length ∧ 0 < payouts.getD i 0 ∧
        assignIdxOf cfgs (payouts.getD i 0) = some j) := by
  unfold bucketIndicesFor
  rw [List.mem_filter, List.mem_range]
  simp only [Bool.and_eq_true, decide_eq_true_eq, beq_iff_eq]

/-- The fallback bucket index is always in range for a nonempty bucket
list. -/
theorem closestIdx_lt (cfgs : List BucketConfig) (p : ℚ) (hne : cfgs ≠ []) :
    closestIdx cfgs p < cfgs.length := by
  unfold closestIdx
  have hlen : 0 < cfgs.length := List.length_pos.mpr hne
  have key : ∀ (l : List (ℕ × BucketConfig)) (st : ℕ × ℚ),
      (∀ x ∈ l, x.1 < cfgs.length) → st.1 < cfgs.length →
      (l.foldl (fun st jb =>
        let dist := min |p - jb.2.minPayout| |p - jb.2.maxPayout|
        if dist < st.2 then (jb.1, dist) else st) st).1 < cfgs.length := by
    intro l
    induction l with
    | nil => intro st _ hst; exact hst
    | cons x xs ih =>
      intro st hall hst
      simp only [List.foldl_cons]
      apply ih
      · intro y hy; exact hall y (List.mem_cons_of_mem _ hy)
      · dsimp only
        split
        · exact hall x (List.mem_cons_self _ _)
        · exact hst
  apply key
  · intro x hx
    rw [List.enum_eq_zip_range _] at hx
    have := (List.of_mem_zip hx).1
    exact List.mem_range.mp this
  · exact hlen

/-- With at least one bucket, every payout is routed somewhere. -/
theorem assignIdxOf_total (cfgs : List BucketConfig) (p : ℚ) (hne : cfgs ≠ []) :
    ∃ j, assignIdxOf cfgs p = some j ∧ j < cfgs.length := by
  unfold assignIdxOf
  cases hf : firstMatchIdx cfgs p with
  | some j =>
    refine ⟨j, rfl, ?_⟩
    exact List.mem_range.mp (List.mem_of_find?_eq_some hf)
  | none =>
    have hlen : ¬ cfgs.length = 0 := by
      intro h; exact hne (List.length_eq_zero.mp h)
    rw [if_neg hlen]
    exact ⟨closestIdx cfgs p, rfl, closestIdx_lt cfgs p hne⟩

/-- With at least one bucket the assignment step never panics and produces
the canonical bucket/loss partition. -/
theorem assign_some_of_ne_nil (cfgs : List BucketConfig) (payouts : List ℚ)
    (hne : cfgs ≠ []) :
    assignOutcomesToBuckets cfgs payouts =
      some (cfgs.enum.map (fun jc => mkAssignment cfgs payouts jc.1 jc.2),
            lossIndicesFor payouts) := by
  unfold assignOutcomesToBuckets
  have hcond : ¬ ((List.range payouts.length).any
      (fun i => decide (0 < payouts.getD i 0) &&
        (assignIdxOf cfgs (payouts.getD i 0)).isNone) = true) := by
    rw [List.any_eq_true]
    rintro ⟨i, -, hb⟩
    rw [Bool.and_eq_true] at hb
    obtain ⟨j, hj, -⟩ := assignIdxOf_total cfgs (payouts.getD i 0) hne
    rw [hj] at hb
    simp at hb
  rw [if_neg hcond]

/-- Reading the `j`-th assignment record. -/
theorem assign_getD (cfgs : List BucketConfig) (payouts : List ℚ) (j : ℕ)
    (hj : j < cfgs.length) :
    (cfgs.enum.map (fun jc => mkAssignment cfgs payouts jc.1 jc.2)).getD j default
      = mkAssignment cfgs payouts j (cfgs.getD j default) := by
  have hlen : j < (cfgs.enum.map
      (fun jc => mkAssignment cfgs payouts jc.1 jc.2)).length := by
    simpa [List.enum_length] using hj
  rw [List.getD_eq_getElem _ _ hlen, List.getElem_map, List.getElem_enum]
  rw [List.getD_eq_getElem _ _ hj]

/-- C6 counterexample: with an *empty* bucket list and one winning outcome,
`assignOutcomesToBuckets` does not assign the outcome to any bucket — the Go
fallback indexes `assignments[0]` on an empty slice and panics (modeled as
`none`), so the claim does not hold for arbitrary bucket lists. -/
theorem c6_counterexample :
    assignOutcomesToBuckets ([] : List BucketConfig) [(1 : ℚ)] = none :=
  of_decide_eq_true (by with_unfolding_all rfl)

/-- C6 (amended): for every *nonempty* bucket list, every winning outcome is
assigned to exactly one bucket — the first bucket `j` with
`min ≤ p < max` (`≤ max` for the last), or, when no bucket's range matches,
the bucket minimizing the endpoint distance — and every losing outcome goes
to the loss set and to no bucket. -/
theorem c6_bucket_cover :
    ∀ (cfgs : List BucketConfig) (payouts : List ℚ)
      (as : List bucketAssignment) (loss : List ℕ),
    cfgs ≠ [] →
    assignOutcomesToBuckets cfgs payouts = some (as, loss) →
    as.length = cfgs.length ∧
    ∀ i < payouts.length,
      (0 < payouts.getD i 0 →
        (∃! j, j < as.length ∧ i ∈ (as.getD j default).outcomeIndices) ∧
        (∀ j, j < cfgs.length →
          inRangeB cfgs j (payouts.getD i 0) = true →
          (∀ k < j, inRangeB cfgs k (payouts.getD i 0) = false) →
          i ∈ (as.getD j default).outcomeIndices) ∧
        ((∀ j < cfgs.length, inRangeB cfgs j (payouts.getD i 0) = false) →
          i ∈ (as.getD (closestIdx cfgs (payouts.getD i 0)) default).outcomeIndices)) ∧
      (payouts.getD i 0 ≤ 0 →
        i ∈ loss ∧ ∀ j, i ∉ (as.getD j default).outcomeIndices) := by
  intro cfgs payouts as loss hne hsome
  rw [assign_some_of_ne_nil cfgs payouts hne] at hsome
  injection hsome with hsome
  injection hsome with hA hL
  subst hA
  subst hL
  have hlenA : (cfgs.enum.map
      (fun jc => mkAssignment cfgs payouts jc.1 jc.2)).length = cfgs.length := by
    simp [List.enum_length]
  refine ⟨hlenA, ?_⟩
  intro i hi
  constructor
  · intro hpos
    obtain ⟨j0, hj0, hj0lt⟩ := assignIdxOf_total cfgs (payouts.getD i 0) hne
    have hmem0 : i ∈ ((cfgs.enum.map
        (fun jc => mkAssignment cfgs payouts jc.1 jc.2)).getD j0 default).outcomeIndices := by
      rw [assign_getD cfgs payouts j0 hj0lt]
      exact (mem_bucketIndicesFor cfgs payouts j0 i).mpr ⟨hi, hpos, hj0⟩
    refine ⟨⟨j0, ⟨by rw [hlenA]; exact hj0lt, hmem0⟩, ?_⟩, ?_, ?_⟩
    · rintro j ⟨hjlt, hjmem⟩
      rw [hlenA] at hjlt
      rw [assign_getD cfgs payouts j hjlt] at hjmem
      have h2 := (mem_bucketIndicesFor cfgs payouts j i).mp hjmem
      have h3 : some j = some j0 := h2.2.2.symm.trans hj0
      injection h3
    · intro j hjlt hin hfirst
      have hfm : firstMatchIdx cfgs (payouts.getD i 0) = some j :=
        (find?_range_some _ cfgs.length j).mpr ⟨hjlt, hin, hfirst⟩
      have hassign : assignIdxOf cfgs (payouts.getD i 0) = some j := by
        unfold assignIdxOf
        rw [hfm]
      rw [assign_getD cfgs payouts j hjlt]
      exact (mem_bucketIndicesFor cfgs payouts j i).mpr ⟨hi, hpos, hassign⟩
    · intro hnone
      have hfm : firstMatchIdx cfgs (payouts.getD i 0) = none := by
        unfold firstMatchIdx
        apply List.find?_eq_none.mpr
        intro k hk
        rw [hnone k (List.mem_range.mp hk)]
        simp
      have hlen0 : ¬ cfgs.length = 0 := by
        intro h; exact hne (List.length_eq_zero.mp h)
      have hassign : assignIdxOf cfgs (payouts.getD i 0)
          = some (closestIdx cfgs (payouts.getD i 0)) := by
        unfold assignIdxOf
        rw [hfm]
        show (if cfgs.length = 0 then none
              else some (closestIdx cfgs (payouts.getD i 0))) = _
        rw [if_neg hlen0]
      rw [assign_getD cfgs payouts _ (closestIdx_lt cfgs _ hne)]
      exact (mem_bucketIndicesFor cfgs payouts _ i).mpr ⟨hi, hpos, hassign⟩
  · intro hle
    constructor
    · unfold lossIndicesFor
      rw [List.mem_filter]
      exact ⟨List.mem_range.mpr hi, decide_eq_true hle⟩
    · intro j hjmem
      by_cases hjlt : j < cfgs.length
      · rw [assign_getD cfgs payouts j hjlt] at hjmem
        have h2 := (mem_bucketIndicesFor cfgs payouts j i).mp hjmem
        exact absurd h2.2.1 (not_lt.mpr hle)
      · rw [List.getD_eq_default _ _ (by rw [hlenA]; omega)] at hjmem
        simp [default] at hjmem

/-- Concrete bucket list for the C6 witness. -/
def cfgsC6 : List BucketConfig :=
  [{ name := "b", minPayout := 0, maxPayout := 10, type := .frequency, frequency := 2 }]

/-- The assignment record list produced for payouts `[1, 0]`. -/
def asC6 : List bucketAssignment :=
  [{ config := { name := "b", minPayout := 0, maxPayout := 10,
                 type := .frequency, frequency := 2 }
     outcomeIndices := [0]
     payouts := [1]
     avgPayout := 1 }]

/-- C6 witness: the amended cover theorem applied to one bucket and payouts
`[1, 0]` — outcome 0 (payout 1) sits in exactly one bucket, outcome 1 is a
loss. -/
theorem c6_witness :
    cfgsC6 ≠ [] ∧
    assignOutcomesToBuckets cfgsC6 [1, 0] = some (asC6, [1]) ∧
    (∃! j, j < asC6.length ∧ 0 ∈ (asC6.getD j default).outcomeIndices) ∧
    (1 ∈ ([1] : List ℕ) ∧ ∀ j, 1 ∉ (asC6.getD j default).outcomeIndices) :=
  ⟨of_decide_eq_true (by with_unfolding_all rfl),
   of_decide_eq_true (by with_unfolding_all rfl),
   (((c6_bucket_cover cfgsC6 [1, 0] asC6 [1]
       (of_decide_eq_true (by with_unfolding_all rfl))
       (of_decide_eq_true (by with_unfolding_all rfl))).2 0
       (of_decide_eq_true (by with_unfolding_all rfl))).1
       (of_decide_eq_true (by with_unfolding_all rfl))).1,
   ((c6_bucket_cover cfgsC6 [1, 0] asC6 [1]
       (of_decide_eq_true (by with_unfolding_all rfl))
       (of_decide_eq_true (by with_unfolding_all rfl))).2 1
       (of_decide_eq_true (by with_unfolding_all rfl))).2
       (of_decide_eq_true (by with_unfolding_all rfl))⟩

/-- Concrete input for the C2 witness: one auto bucket holding a single
outcome of payout 2, target RTP `0.6`. -/
def cfgC2 : BucketOptimizerConfig := { targetRTP := 3/5, buckets := [] }

/-- The assignment list for the C2 witness. -/
def asC2 : List bucketAssignment :=
  [{ config := { name := "auto", type := .auto }
     outcomeIndices := [0]
     payouts := [2]
     avgPayout := 2 }]

/-- C2 witness: the inverse-payout theorem applied to the concrete one-auto-
bucket input; the single probability is `0.6 · 2⁻¹ / 2⁰ = 0.3` and the total
contribution is `0.3 · 2 = 0.6 = remaining_rtp`. -/
theorem c2_witness :
    0 < remainingRTPOf cfgC2.targetRTP asC2 ∧
    (((calculateTargetProbabilities cfgC2 asC2).1.filter (fun b => b.isAuto)).map
        (fun b => ((b.outcomeProbs.zip b.payouts).map (fun pq => pq.1 * pq.2)).sum)).sum
      = remainingRTPOf cfgC2.targetRTP asC2 :=
  ⟨of_decide_eq_true (by with_unfolding_all rfl),
   (c2_inverse_payout_rule cfgC2 asC2
     (of_decide_eq_true (by with_unfolding_all rfl))
     (of_decide_eq_true (by with_unfolding_all rfl))
     (of_decide_eq_true (by with_unfolding_all rfl))).2⟩

/-! ## C5 / C10 — pipeline invariants of `OptimizeTable`

Helper lemmas tracking outcome indices and voiding flags through the
pipeline. -/

/-- `pass1Update` never changes a bucket's outcome indices. -/
theorem pass1Update_outcomeIndices (t : ℚ) (b : bucketAssignment) :
    (pass1Update t b).outcomeIndices = b.outcomeIndices := by
  unfold pass1Update
  split
  · rfl
  · split <;> first | rfl | (split <;> rfl)

/-- `pass1Update` never changes a bucket's voided flag. -/
theorem pass1Update_isVoided (t : ℚ) (b : bucketAssignment) :
    (pass1Update t b).isVoided = b.isVoided := by
  unfold pass1Update
  split
  · rfl
  · split <;> first | rfl | (split <;> rfl)

/-- `pass2Update` never changes a bucket's outcome indices. -/
theorem pass2Update_outcomeIndices (r D : ℚ) (b : bucketAssignment) :
    (pass2Update r D b).outcomeIndices = b.outcomeIndices := by
  unfold pass2Update
  split <;> rfl

/-- `pass2Update` never changes a bucket's voided flag. -/
theorem pass2Update_isVoided (r D : ℚ) (b : bucketAssignment) :
    (pass2Update r D b).isVoided = b.isVoided := by
  unfold pass2Update
  split <;> rfl

/-- The target-probability solver maps some per-bucket update over the
assignment list; the update never touches outcome indices or voided flags. -/
theorem calcTargetProbs_shape (cfg : BucketOptimizerConfig)
    (as1 : List bucketAssignment) :
    ∃ f : bucketAssignment → bucketAssignment,
      (calculateTargetProbabilities cfg as1).1 = as1.map f ∧
      ∀ b, (f b).outcomeIndices = b.outcomeIndices ∧ (f b).isVoided = b.isVoided := by
  by_cases h : ((as1.map (pass1Update cfg.targetRTP)).any isActiveAuto = true)
      ∧ 0 < max (cfg.targetRTP - usedRTPOf cfg.targetRTP as1) 0
  · refine ⟨pass2Update (max (cfg.targetRTP - usedRTPOf cfg.targetRTP as1) 0)
      (sumPow1MinusExp (as1.map (pass1Update cfg.targetRTP))) ∘ pass1Update cfg.targetRTP,
      ?_, ?_⟩
    · simp only [calculateTargetProbabilities]
      rw [if_pos h]
      simp [List.map_map]
    · intro b
      constructor
      · rw [Function.comp_apply, pass2Update_outcomeIndices, pass1Update_outcomeIndices]
      · rw [Function.comp_apply, pass2Update_isVoided, pass1Update_isVoided]
  · refine ⟨pass1Update cfg.targetRTP, ?_, ?_⟩
    · simp only [calculateTargetProbabilities]
      rw [if_neg h]
    · intro b
      exact ⟨pass1Update_outcomeIndices _ _, pass1Update_isVoided _ _⟩

/-- Reading through `map` with `getElem`. -/
theorem getElem_enum_map {α β : Type} (l : List α) (g : ℕ × α → β) (j : ℕ)
    (hj : j < (l.enum.map g).length) (hj2 : j < l.length) :
    (l.enum.map g)[j] = g (j, l[j]) := by
  rw [List.getElem_map, List.getElem_enum]

/-- The position-`j` record of the optimizer's assignment pipeline: its
outcome indices are `bucketIndicesFor j` and it is voided iff `j` is a
legacy-voided bucket index. -/
theorem pipeline_bucket_shape (cfg : BucketOptimizerConfig) (payouts : List ℚ)
    (j : ℕ) (hj : j < cfg.buckets.length) :
    ∃ b2 : bucketAssignment,
      ((calculateTargetProbabilities cfg
          (markLegacyVoided cfg
            (cfg.buckets.enum.map
              (fun jc => mkAssignment cfg.buckets payouts jc.1 jc.2)))).1).getD j default
        = b2 ∧
      b2.outcomeIndices = bucketIndicesFor cfg.buckets payouts j ∧
      (b2.isVoided = true ↔ j ∈ legacyVoidedBucketIdx cfg) := by
  obtain ⟨f, hfeq, hf⟩ := calcTargetProbs_shape cfg
    (markLegacyVoided cfg
      (cfg.buckets.enum.map (fun jc => mkAssignment cfg.buckets payouts jc.1 jc.2)))
  rw [hfeq]
  have hlen0 : j < (cfg.buckets.enum.map
      (fun jc => mkAssignment cfg.buckets payouts jc.1 jc.2)).length := by
    simpa [List.enum_length] using hj
  have hlen1 : j < (markLegacyVoided cfg
      (cfg.buckets.enum.map
        (fun jc => mkAssignment cfg.buckets payouts jc.1 jc.2))).length := by
    unfold markLegacyVoided
    simpa [List.enum_length] using hlen0
  have hlen2 : j < ((markLegacyVoided cfg
      (cfg.buckets.enum.map
        (fun jc => mkAssignment cfg.buckets payouts jc.1 jc.2))).map f).length := by
    simpa using hlen1
  refine ⟨_, by rw [List.getD_eq_getElem _ _ hlen2], ?_, ?_⟩
  all_goals rw [List.getElem_map]
  all_goals unfold markLegacyVoided
  all_goals rw [getElem_enum_map _ _ _ (by simpa [List.enum_length] using hlen0) hlen0]
  all_goals rw [getElem_enum_map _ _ _ hlen0 hj]
  · rw [(hf _).1]
    split
    · rfl
    · rfl
  · rw [(hf _).2]
    split
    · simpa using (by assumption : j ∈ legacyVoidedBucketIdx cfg)
    · simp only [mkAssignment]
      constructor
      · intro h
        cases h
      · intro h
        exact absurd h (by assumption)

/-- Every index collected by legacy bucket voiding belongs to the named
bucket of the canonical assignment. -/
theorem legacyVoided_mem_intro (cfg : BucketOptimizerConfig) (payouts : List ℚ)
    (j i : ℕ) (hj : j < cfg.buckets.length)
    (hjv : j ∈ legacyVoidedBucketIdx cfg)
    (hi : i ∈ bucketIndicesFor cfg.buckets payouts j) :
    i ∈ legacyVoidedOutcomeIdx cfg
      (cfg.buckets.enum.map (fun jc => mkAssignment cfg.buckets payouts jc.1 jc.2)) := by
  unfold legacyVoidedOutcomeIdx
  rw [List.mem_flatMap]
  have hlen : j < (cfg.buckets.enum.map
      (fun jc => mkAssignment cfg.buckets payouts jc.1 jc.2)).length := by
    simpa [List.enum_length] using hj
  have hlen2 : j < (cfg.buckets.enum.map
      (fun jc => mkAssignment cfg.buckets payouts jc.1 jc.2)).enum.length := by
    simpa [List.enum_length] using hlen
  refine ⟨(j, (cfg.buckets.enum.map
      (fun jc => mkAssignment cfg.buckets payouts jc.1 jc.2))[j]), ?_, ?_⟩
  · rw [List.mem_filter]
    refine ⟨?_, decide_eq_true hjv⟩
    have e1 : (cfg.buckets.enum.map
        (fun jc => mkAssignment cfg.buckets payouts jc.1 jc.2)).enum[j]
        = (j, (cfg.buckets.enum.map
            (fun jc => mkAssignment cfg.buckets payouts jc.1 jc.2))[j]) :=
      List.getElem_enum _ j hlen2
    rw [← e1]
    exact List.getElem_mem hlen2
  · show i ∈ ((cfg.buckets.enum.map
      (fun jc => mkAssignment cfg.buckets payouts jc.1 jc.2))[j]).outcomeIndices
    rw [getElem_enum_map _ _ _ hlen hj]
    exact hi

/-- Every legacy-voided outcome index is a winning outcome of the table. -/
theorem legacyVoided_pos (cfg : BucketOptimizerConfig) (payouts : List ℚ) (i : ℕ)
    (hi : i ∈ legacyVoidedOutcomeIdx cfg
      (cfg.buckets.enum.map (fun jc => mkAssignment cfg.buckets payouts jc.1 jc.2))) :
    i < payouts.length ∧ 0 < payouts.getD i 0 := by
  unfold legacyVoidedOutcomeIdx at hi
  rw [List.mem_flatMap] at hi
  obtain ⟨jb, hjb, hmem⟩ := hi
  have hjb2 : jb ∈ (cfg.buckets.enum.map
      (fun jc => mkAssignment cfg.buckets payouts jc.1 jc.2)).enum :=
    (List.mem_filter.mp hjb).1
  rw [List.enum_eq_zip_range _] at hjb2
  have hb : jb.2 ∈ cfg.buckets.enum.map
      (fun jc => mkAssignment cfg.buckets payouts jc.1 jc.2) :=
    (List.of_mem_zip hjb2).2
  obtain ⟨jc, -, hjc⟩ := List.mem_map.mp hb
  rw [← hjc] at hmem
  have := (mem_bucketIndicesFor cfg.buckets payouts jc.1 i).mp hmem
  exact ⟨this.1, this.2.1⟩

/-- Invariant preservation for folds over the voiding state. -/
theorem foldl_void_inv {α : Type} (f : VoidState → α → VoidState) (l : List α)
    (P : ℕ → Prop)
    (hstep : ∀ st a, a ∈ l → (∀ i ∈ st.voidedIndices, P i) →
      ∀ i ∈ (f st a).voidedIndices, P i) :
    ∀ st, (∀ i ∈ st.voidedIndices, P i) → ∀ i ∈ (l.foldl f st).voidedIndices, P i := by
  induction l with
  | nil => intro st hst; exact hst
  | cons x xs ih =>
    intro st hst
    simp only [List.foldl_cons]
    exact ih (fun st2 a ha => hstep st2 a (List.mem_cons_of_mem _ ha))
      (f st x) (hstep st x (List.mem_cons_self _ _) hst)

/-- Every index a phase-1 step adds lies in the group's index list. -/
theorem phase1Step_inv (rtp : ℚ) (g : PayoutGroup) (P : ℕ → Prop)
    (hg : ∀ i ∈ g.indices, P i) (st : VoidState)
    (hst : ∀ i ∈ st.voidedIndices, P i) :
    ∀ i ∈ (phase1Step rtp st g).voidedIndices, P i := by
  unfold phase1Step
  split
  · exact hst
  · split
    · have key : ∀ (l : List (ℕ × ℤ)), (∀ x ∈ l, P x.1) →
          ∀ (st2 : VoidState), (∀ i ∈ st2.voidedIndices, P i) →
          ∀ i ∈ (l.foldl (fun st is =>
            if rtp ≤ st.removedRTP then st
            else
              { removedRTP := st.removedRTP + g.rtpPerOutcome
                voidedIndices := st.voidedIndices ++ [is.1]
                voidedOutcomes := st.voidedOutcomes ++
                  [{ simID := is.2, payout := g.payout, reason := "duplicate"
                     rtpLoss := g.rtpPerOutcome }] }) st2).voidedIndices, P i := by
        intro l
        induction l with
        | nil => intro _ st2 hst2; exact hst2
        | cons x xs ih2 =>
          intro hl st2 hst2
          simp only [List.foldl_cons]
          apply ih2 (fun y hy => hl y (List.mem_cons_of_mem _ hy))
          split
          · exact hst2
          · intro i hi
            simp only [List.mem_append, List.mem_singleton] at hi
            rcases hi with hi | rfl
            · exact hst2 i hi
            · exact hl x (List.mem_cons_self _ _)
      apply key
      · intro x hx
        have hx2 := List.mem_of_mem_drop hx
        exact hg x.1 (List.of_mem_zip hx2).1
      · exact hst
    · exact hst

/-- Every index a phase-2 step adds lies in the group's index list. -/
theorem phase2Step_inv (rtp : ℚ) (g : PayoutGroup) (P : ℕ → Prop)
    (hg : ∀ i ∈ g.indices, P i) (st : VoidState)
    (hst : ∀ i ∈ st.voidedIndices, P i) :
    ∀ i ∈ (phase2Step rtp st g).voidedIndices, P i := by
  unfold phase2Step
  split
  · exact hst
  · split
    · rename_i is heq
      dsimp only
      split
      · intro i hi
        simp only [List.mem_append, List.mem_singleton] at hi
        rcases hi with hi | rfl
        · exact hst i hi
        · exact hg is.1 (List.of_mem_zip (List.mem_of_find?_eq_some heq)).1
      · exact hst
    · dsimp only
      split <;> exact hst

/-- Every auto-voided index is a winning outcome of the table. -/
theorem autoVoid_pos (payouts : List ℚ) (simIDs : List ℤ)
    (targetRTP currentMinRTP : ℚ) :
    ∀ i ∈ (autoSelectOutcomesToVoid payouts simIDs targetRTP currentMinRTP).1,
      0 < payouts.getD i 0 := by
  unfold autoSelectOutcomesToVoid
  split
  · simp
  · split
    · simp
    · have hgroup : ∀ g ∈ (sortedPositivePayoutsDesc payouts).map
          (payoutGroupOf payouts simIDs), ∀ i ∈ g.indices, 0 < payouts.getD i 0 := by
        intro g hgm i hig
        obtain ⟨v, hv, rfl⟩ := List.mem_map.mp hgm
        have hvpos : 0 < v := by
          unfold sortedPositivePayoutsDesc at hv
          have hv2 := (List.perm_insertionSort (· ≥ ·)
            ((payouts.filter (fun p => 0 < p)).dedup)).mem_iff.mp hv
          have hv3 := List.mem_dedup.mp hv2
          exact of_decide_eq_true (List.mem_filter.mp hv3).2
        unfold payoutGroupOf at hig
        simp only [List.mem_filter, List.mem_range, decide_eq_true_eq] at hig
        rw [hig.2]
        exact hvpos
      intro i hi
      apply foldl_void_inv _ _ _
        (fun st g hgm hstI => phase2Step_inv _ g _ (hgroup g hgm) st hstI) _ ?_ i hi
      apply foldl_void_inv _ _ _
        (fun st g hgm hstI => phase1Step_inv _ g _ (hgroup g hgm) st hstI)
      intro j hj
      simp at hj

/-- From a successful assignment, every winning outcome has a routed bucket
index in range. -/
theorem assignIdxOf_of_some (cfgs : List BucketConfig) (payouts : List ℚ)
    (as : List bucketAssignment) (loss : List ℕ)
    (h : assignOutcomesToBuckets cfgs payouts = some (as, loss))
    (i : ℕ) (hi : i < payouts.length) (hpos : 0 < payouts.getD i 0) :
    ∃ j, assignIdxOf cfgs (payouts.getD i 0) = some j ∧ j < cfgs.length := by
  have hnn : cfgs ≠ [] := by
    intro hc
    subst hc
    unfold assignOutcomesToBuckets at h
    rw [if_pos ?_] at h
    · cases h
    · rw [List.any_eq_true]
      refine ⟨i, List.mem_range.mpr hi, ?_⟩
      rw [Bool.and_eq_true]
      refine ⟨decide_eq_true hpos, ?_⟩
      unfold assignIdxOf firstMatchIdx
      simp
  exact assignIdxOf_total cfgs (payouts.getD i 0) hnn

/-- Every key stored by one bucket's write list is one of its outcome
indices. -/
theorem bucketWritePairs_keys (minW : ℕ) (voided : List ℕ) (b : bucketAssignment)
    (kv : ℕ × ℕ) (h : kv ∈ bucketWritePairs minW voided b) :
    kv.1 ∈ b.outcomeIndices := by
  unfold bucketWritePairs at h
  split at h
  · simp at h
  · split at h
    · obtain ⟨ip, hip, rfl⟩ := List.mem_map.mp h
      exact (List.of_mem_zip hip).1
    · dsimp only at h
      split at h
      · obtain ⟨idx, hidx, rfl⟩ := List.mem_map.mp h
        exact hidx
      · simp at h

/-- A non-voided member of a non-voided bucket is stored with weight at least
`minWeight`. -/
theorem bucketWritePairs_ge (minW : ℕ) (voided : List ℕ) (b : bucketAssignment)
    (i : ℕ) (w : ℕ → ℕ)
    (hbv : ¬ b.isVoided = true) (hbi : i ∈ b.outcomeIndices)
    (hnd : b.outcomeIndices.Nodup) (hnv : i ∉ voided) :
    minW ≤ applyWrites (bucketWritePairs minW voided b) w i := by
  unfold bucketWritePairs
  have hlen : ¬ (b.outcomeIndices.length = 0 ∨ b.isVoided = true) := by
    rintro (h0 | hv)
    · rw [List.length_eq_zero.mp h0] at hbi
      simp at hbi
    · exact hbv hv
  rw [if_neg hlen]
  by_cases hauto : b.isAuto = true ∧ b.outcomeProbs.length = b.outcomeIndices.length
  · rw [if_pos hauto]
    have hkeys : (b.outcomeIndices.zip b.outcomeProbs).map Prod.fst
        = b.outcomeIndices :=
      List.map_fst_zip _ _ (le_of_eq hauto.2.symm)
    have hbi2 : i ∈ (b.outcomeIndices.zip b.outcomeProbs).map Prod.fst := by
      rw [hkeys]; exact hbi
    obtain ⟨pr, hpr, hpri⟩ := List.mem_map.mp hbi2
    have hmem2 : (i, max minW (goUint64 (pr.2 * (BaseWeight : ℚ))))
        ∈ (b.outcomeIndices.zip b.outcomeProbs).map
          (fun ip => (ip.1,
            if ip.1 ∈ voided then 0
            else max minW (goUint64 (ip.2 * (BaseWeight : ℚ))))) := by
      refine List.mem_map.mpr ⟨pr, hpr, ?_⟩
      rw [hpri, if_neg hnv]
    rw [applyWrites_nodup _ _ _ _ ?_ hmem2]
    · exact le_max_left _ _
    · rw [List.map_map]
      have : (Prod.fst ∘ fun ip : ℕ × ℚ => (ip.1,
          if ip.1 ∈ voided then 0
          else max minW (goUint64 (ip.2 * (BaseWeight : ℚ)))))
          = Prod.fst := rfl
      rw [this, hkeys]
      exact hnd
  · rw [if_neg hauto]
    have hcount : 0 < b.outcomeIndices.countP (fun idx => decide (idx ∉ voided)) :=
      List.countP_pos_iff.mpr ⟨i, hbi, decide_eq_true hnv⟩
    dsimp only
    rw [if_pos hcount]
    have hmem2 : (i, max minW (goUint64 (b.targetProb * (BaseWeight : ℚ)) /
        b.outcomeIndices.countP (fun idx => decide (idx ∉ voided))))
        ∈ b.outcomeIndices.map (fun idx => (idx,
            if idx ∈ voided then 0
            else max minW (goUint64 (b.targetProb * (BaseWeight : ℚ)) /
              b.outcomeIndices.countP (fun idx => decide (idx ∉ voided))))) := by
      refine List.mem_map.mpr ⟨i, hbi, ?_⟩
      rw [if_neg hnv]
    rw [applyWrites_nodup _ _ _ _ ?_ hmem2]
    · exact le_max_left _ _
    · rw [List.map_map]
      have : (Prod.fst ∘ fun idx : ℕ => (idx,
          if idx ∈ voided then 0
          else max minW (goUint64 (b.targetProb * (BaseWeight : ℚ)) /
            b.outcomeIndices.countP (fun idx => decide (idx ∉ voided)))))
          = id := rfl
      rw [this, List.map_id]
      exact hnd

/-- Buckets not containing `i` never store at `i`. -/
theorem winWrites_not_mem (minW : ℕ) (voided : List ℕ)
    (l : List bucketAssignment) (i : ℕ)
    (h : ∀ b ∈ l, i ∉ b.outcomeIndices) (w : ℕ → ℕ) :
    applyWrites (l.flatMap (bucketWritePairs minW voided)) w i = w i := by
  apply applyWrites_not_mem
  intro hmem
  obtain ⟨kv, hkv, hkvi⟩ := List.mem_map.mp hmem
  obtain ⟨b, hb, hkvb⟩ := List.mem_flatMap.mp hkv
  have := bucketWritePairs_keys minW voided b kv hkvb
  rw [hkvi] at this
  exact h b hb this

/-- The mid-phase weight of a non-voided outcome that sits (exactly once) in
a non-voided bucket, and in no later bucket, is at least `minWeight`. -/
theorem midWeights_ge (minW : ℕ) (voided : List ℕ)
    (pre post : List bucketAssignment) (b : bucketAssignment) (i : ℕ)
    (hbv : ¬ b.isVoided = true) (hbi : i ∈ b.outcomeIndices)
    (hnd : b.outcomeIndices.Nodup)
    (hpost : ∀ b2 ∈ post, i ∉ b2.outcomeIndices)
    (hnv : i ∉ voided) :
    minW ≤ midWeightsFun minW voided (pre ++ b :: post) i := by
  unfold midWeightsFun
  rw [applyWrites_append]
  rw [applyWrites_not_mem _ _ _ ?_]
  · unfold winPhaseWrites
    rw [List.flatMap_append, List.flatMap_cons]
    rw [applyWrites_append, applyWrites_append]
    rw [winWrites_not_mem minW voided post i hpost]
    exact bucketWritePairs_ge minW voided b i _ hbv hbi hnd hnv
  · rw [List.map_map]
    intro hmem
    obtain ⟨x, hx, hxi⟩ := List.mem_map.mp hmem
    have : x = i := hxi
    rw [this] at hx
    exact hnv hx

/-- The length of the materialized weight vector is the outcome count. -/
theorem calcWeights_length (cfg : BucketOptimizerConfig) (payouts : List ℚ)
    (as : List bucketAssignment) (loss : List ℕ) (voided : List ℕ) :
    (calculateWeightsWithVoiding cfg payouts as loss voided).length
      = payouts.length := by
  unfold calculateWeightsWithVoiding
  rw [List.length_map, List.length_range]

/-- The length of the fine-tuned weight vector. -/
theorem fineTune_length (cfg : BucketOptimizerConfig) (weights : List ℕ)
    (payouts : List ℚ) (loss : List ℕ) (voided : List ℕ) :
    (fineTuneLossWeightWithVoiding cfg weights payouts loss voided).length
      = weights.length := by
  unfold fineTuneLossWeightWithVoiding
  rw [List.length_map, List.length_range]

/-- Fine-tuning rewrites every loss index to the fine-tune per-outcome
weight. -/
theorem fineTune_loss_value (cfg : BucketOptimizerConfig) (weights : List ℕ)
    (payouts : List ℚ) (loss : List ℕ) (voided : List ℕ)
    (i : ℕ) (hi : i ∈ loss) (hir : i < weights.length) :
    (fineTuneLossWeightWithVoiding cfg weights payouts loss voided).getD i 0
      = fineTunePer cfg payouts loss voided (fun k => weights.getD k 0) := by
  unfold fineTuneLossWeightWithVoiding
  rw [toListN_getD _ _ _ hir]
  apply applyWrites_const
  · intro kv hkv
    obtain ⟨x, hx, rfl⟩ := List.mem_map.mp hkv
    rfl
  · rw [List.map_map]
    exact List.mem_map.mpr ⟨i, hi, rfl⟩

/-- Fine-tuning leaves non-loss indices unchanged. -/
theorem fineTune_other_value (cfg : BucketOptimizerConfig) (weights : List ℕ)
    (payouts : List ℚ) (loss : List ℕ) (voided : List ℕ)
    (i : ℕ) (hi : i ∉ loss) (hir : i < weights.length) :
    (fineTuneLossWeightWithVoiding cfg weights payouts loss voided).getD i 0
      = weights.getD i 0 := by
  unfold fineTuneLossWeightWithVoiding
  rw [toListN_getD _ _ _ hir]
  apply applyWrites_not_mem
  rw [List.map_map]
  intro hmem
  obtain ⟨x, hx, hxi⟩ := List.mem_map.mp hmem
  have : x = i := hxi
  rw [this] at hx
  exact hi hx

/-! ## `OptimizeTable` result characterization -/

/-- The first-pass weight vector `OptimizeTable` computes once the
bucket/loss assignment is fixed. -/
def optW0 (cfg : BucketOptimizerConfig) (t : LookupTable)
    (as0 : List bucketAssignment) (loss : List ℕ) : List ℕ :=
  calculateWeightsWithVoiding cfg (normPayouts t)
    ((calculateTargetProbabilities cfg (markLegacyVoided cfg as0)).1) loss
    (legacyVoidedOutcomeIdx cfg as0 ++ (autoVoidResult cfg t).1)

/-- The fine-tune decision and its outputs: final weights, final RTP,
convergence flag. -/
def optFin (cfg : BucketOptimizerConfig) (t : LookupTable)
    (as0 : List bucketAssignment) (loss : List ℕ) : List ℕ × ℚ × Bool :=
  if decide (|calculateRTPFromWeights (optW0 cfg t as0 loss) (normPayouts t)
      - cfg.targetRTP| ≤ cfg.rtpTolerance) = false ∧ loss ≠ [] then
    (fineTuneLossWeightWithVoiding cfg (optW0 cfg t as0 loss) (normPayouts t) loss
       (legacyVoidedOutcomeIdx cfg as0 ++ (autoVoidResult cfg t).1),
     calculateRTPFromWeights
       (fineTuneLossWeightWithVoiding cfg (optW0 cfg t as0 loss) (normPayouts t) loss
         (legacyVoidedOutcomeIdx cfg as0 ++ (autoVoidResult cfg t).1)) (normPayouts t),
     decide (|calculateRTPFromWeights
       (fineTuneLossWeightWithVoiding cfg (optW0 cfg t as0 loss) (normPayouts t) loss
         (legacyVoidedOutcomeIdx cfg as0 ++ (autoVoidResult cfg t).1)) (normPayouts t)
       - cfg.targetRTP| ≤ cfg.rtpTolerance))
  else (optW0 cfg t as0 loss,
    calculateRTPFromWeights (optW0 cfg t as0 loss) (normPayouts t),
    decide (|calculateRTPFromWeights (optW0 cfg t as0 loss) (normPayouts t)
      - cfg.targetRTP| ≤ cfg.rtpTolerance))

/-- The final weight vector of `OptimizeTable`. -/
def optNewWeights (cfg : BucketOptimizerConfig) (t : LookupTable)
    (as0 : List bucketAssignment) (loss : List ℕ) : List ℕ :=
  if decide (|calculateRTPFromWeights (optW0 cfg t as0 loss) (normPayouts t)
      - cfg.targetRTP| ≤ cfg.rtpTolerance) = false ∧ loss ≠ [] then
    fineTuneLossWeightWithVoiding cfg (optW0 cfg t as0 loss) (normPayouts t) loss
      (legacyVoidedOutcomeIdx cfg as0 ++ (autoVoidResult cfg t).1)
  else optW0 cfg t as0 loss

/-- The result record `OptimizeTable` produces when the assignment step
returns `(as0, loss)`. -/
def optResult (cfg : BucketOptimizerConfig) (t : LookupTable)
    (as0 : List bucketAssignment) (loss : List ℕ) : BucketOptimizerResult :=
  { originalRTP := calculateRTPFromWeights (t.outcomes.map (fun o => o.weight))
      (normPayouts t)
    finalRTP := (optFin cfg t as0 loss).2.1
    targetRTP := cfg.targetRTP
    converged := (optFin cfg t as0 loss).2.2
    newWeights := (optFin cfg t as0 loss).1
    totalWeight := sumUint64 (optFin cfg t as0 loss).1
    voidedOutcomes := (autoVoidResult cfg t).2
    totalVoided := (autoVoidResult cfg t).2.length
    voidedRTP := ((autoVoidResult cfg t).2.map (fun vo => vo.rtpLoss)).sum }

/-- C5 witness inputs: a one-outcome pure-loss table. -/
def cfgC5 : BucketOptimizerConfig := { targetRTP := 1 }

def tblC5 : LookupTable :=
  { cost := 1, outcomes := [{ simID := 1, payout := 0, weight := 1 }] }

def resC5 : BucketOptimizerResult :=
  { originalRTP := 0, finalRTP := 0, targetRTP := 1, converged := false
    newWeights := [1], totalWeight := 1, voidedOutcomes := [], totalVoided := 0
    voidedRTP := 0 }

/-- C10 witness inputs: a one-outcome all-loss table. -/
def cfgC10 : BucketOptimizerConfig := {}

def tblC10 : LookupTable :=
  { cost := 1, outcomes := [{ simID := 1, payout := -100, weight := 1 }] }

/-- On the nonempty branch, `OptimizeTable` is the match on the assignment
step. -/
theorem optimizeTable_unfold (cfg : BucketOptimizerConfig) (t : LookupTable)
    (hn0 : ¬ t.outcomes.length = 0) :
    optimizeTable cfg t =
      match assignOutcomesToBuckets cfg.buckets (normPayouts t) with
      | none => none
      | some (as0, loss) => some (Except.ok (optResult cfg t as0 loss)) := by
  unfold optimizeTable
  rw [if_neg hn0]
  with_unfolding_all rfl

/-- A successful assignment yields exactly the canonical bucket records and
loss set. -/
theorem assign_some_inv (cfgs : List BucketConfig) (payouts : List ℚ)
    (as : List bucketAssignment) (loss : List ℕ)
    (h : assignOutcomesToBuckets cfgs payouts = some (as, loss)) :
    as = cfgs.enum.map (fun jc => mkAssignment cfgs payouts jc.1 jc.2) ∧
    loss = lossIndicesFor payouts := by
  unfold assignOutcomesToBuckets at h
  split at h
  · cases h
  · injection h with h1
    injection h1 with h2 h3
    exact ⟨h2.symm, h3.symm⟩

/-- The voided index list `OptimizeTable` uses, given a successful
assignment. -/
theorem voidedIndicesOf_eq (cfg : BucketOptimizerConfig) (t : LookupTable)
    (as0 : List bucketAssignment) (loss : List ℕ)
    (hassign : assignOutcomesToBuckets cfg.buckets (normPayouts t) = some (as0, loss)) :
    voidedIndicesOf cfg t
      = legacyVoidedOutcomeIdx cfg as0 ++ (autoVoidResult cfg t).1 := by
  unfold voidedIndicesOf
  rw [hassign]

/-- Reading the final weight vector out of the result record. -/
theorem optResult_newWeights (cfg : BucketOptimizerConfig) (t : LookupTable)
    (as0 : List bucketAssignment) (loss : List ℕ) :
    (optResult cfg t as0 loss).newWeights = optNewWeights cfg t as0 loss := by
  show (optFin cfg t as0 loss).1 = optNewWeights cfg t as0 loss
  unfold optFin optNewWeights
  by_cases h : decide (|calculateRTPFromWeights (optW0 cfg t as0 loss) (normPayouts t)
      - cfg.targetRTP| ≤ cfg.rtpTolerance) = false ∧ loss ≠ []
  · rw [if_pos h, if_pos h]
  · rw [if_neg h, if_neg h]

/-- Normalization keeps the outcome count. -/
theorem normPayouts_length (t : LookupTable) :
    (normPayouts t).length = t.outcomes.length := by
  unfold normPayouts
  rw [List.length_map]

/-- Membership in the loss set. -/
theorem mem_lossIndicesFor (payouts : List ℚ) (i : ℕ) :
    i ∈ lossIndicesFor payouts ↔
      i < payouts.length ∧ payouts.getD i 0 ≤ 0 := by
  unfold lossIndicesFor
  rw [List.mem_filter, List.mem_range]
  simp

/-- The assignment list has one record per bucket throughout the pipeline. -/
theorem pipeline_length (cfg : BucketOptimizerConfig) (payouts : List ℚ) :
    ((calculateTargetProbabilities cfg (markLegacyVoided cfg
      (cfg.buckets.enum.map
        (fun jc => mkAssignment cfg.buckets payouts jc.1 jc.2)))).1).length
      = cfg.buckets.length := by
  obtain ⟨f, hfeq, -⟩ := calcTargetProbs_shape cfg
    (markLegacyVoided cfg
      (cfg.buckets.enum.map (fun jc => mkAssignment cfg.buckets payouts jc.1 jc.2)))
  rw [hfeq, List.length_map]
  unfold markLegacyVoided
  rw [List.length_map, List.enum_length, List.length_map, List.enum_length]

/-- Bucket index lists never repeat an outcome. -/
theorem bucketIndicesFor_nodup (cfgs : List BucketConfig) (payouts : List ℚ)
    (j : ℕ) : (bucketIndicesFor cfgs payouts j).Nodup :=
  (List.nodup_range payouts.length).filter _

/-- Splitting a list at a position. -/
theorem list_split_at {α : Type} [Inhabited α] (l : List α) (j : ℕ)
    (hj : j < l.length) :
    l = l.take j ++ l.getD j default :: l.drop (j + 1) := by
  rw [List.getD_eq_getElem _ _ hj]
  conv_lhs => rw [← List.take_append_drop j l]
  rw [List.drop_eq_getElem_cons hj]

/-- A winning outcome routed to a non-legacy-voided bucket keeps at least
`minWeight` after the mid phase, for any assignment list whose records carry
the canonical index lists and voided flags. -/
theorem shaped_win_weight_ge (cfg : BucketOptimizerConfig) (payouts : List ℚ)
    (voided : List ℕ) (as2 : List bucketAssignment) (i j : ℕ)
    (hlen2 : as2.length = cfg.buckets.length)
    (hshape : ∀ k, k < cfg.buckets.length →
      (as2.getD k default).outcomeIndices = bucketIndicesFor cfg.buckets payouts k ∧
      ((as2.getD k default).isVoided = true ↔ k ∈ legacyVoidedBucketIdx cfg))
    (hjlt : j < cfg.buckets.length)
    (hassignj : assignIdxOf cfg.buckets (payouts.getD i 0) = some j)
    (hir : i < payouts.length) (hpos : 0 < payouts.getD i 0)
    (hnv : i ∉ voided) (hjnl : j ∉ legacyVoidedBucketIdx cfg) :
    cfg.minWeight ≤ midWeightsFun cfg.minWeight voided as2 i := by
  have hjlt2 : j < as2.length := by rw [hlen2]; exact hjlt
  have hsplit : as2 = as2.take j ++ as2.getD j default :: as2.drop (j + 1) :=
    list_split_at as2 j hjlt2
  obtain ⟨hbidx, hbvoid⟩ := hshape j hjlt
  have hbv : ¬ (as2.getD j default).isVoided = true := fun h => hjnl (hbvoid.mp h)
  have hbi : i ∈ (as2.getD j default).outcomeIndices := by
    rw [hbidx]
    exact (mem_bucketIndicesFor _ _ _ _).mpr ⟨hir, hpos, hassignj⟩
  have hnd : (as2.getD j default).outcomeIndices.Nodup := by
    rw [hbidx]
    exact bucketIndicesFor_nodup _ _ _
  have hpost : ∀ b3 ∈ as2.drop (j + 1), i ∉ b3.outcomeIndices := by
    intro b3 hb3 hib3
    obtain ⟨n, hn, hb3eq⟩ := List.mem_iff_getElem.mp hb3
    have hkd : j + 1 + n < as2.length := by
      rw [List.length_drop] at hn
      omega
    have hb3eq2 : as2[j + 1 + n] = b3 := by
      rw [← hb3eq, List.getElem_drop]
    have hklt : j + 1 + n < cfg.buckets.length := by
      rw [← hlen2]
      exact hkd
    obtain ⟨hcidx, -⟩ := hshape (j + 1 + n) hklt
    rw [List.getD_eq_getElem _ _ hkd, hb3eq2] at hcidx
    rw [hcidx] at hib3
    have hx := (mem_bucketIndicesFor _ _ _ _).mp hib3
    rw [hassignj] at hx
    have hxx : j = j + 1 + n := Option.some.inj hx.2.2
    omega
  calc cfg.minWeight
      ≤ midWeightsFun cfg.minWeight voided
          (as2.take j ++ as2.getD j default :: as2.drop (j + 1)) i :=
        midWeights_ge cfg.minWeight voided (as2.take j) (as2.drop (j + 1))
          (as2.getD j default) i hbv hbi hnd hpost hnv
    _ = midWeightsFun cfg.minWeight voided as2 i := by rw [← hsplit]

/-- The weight invariants of `OptimizeTable`, for an arbitrary configuration:
one weight per outcome, non-voided outcomes at least `minWeight`, voided
outcomes exactly 0. -/
theorem optimize_invariants (cfg : BucketOptimizerConfig) (t : LookupTable)
    (r : BucketOptimizerResult)
    (hok : optimizeTable cfg t = some (Except.ok r)) :
    r.newWeights.length = t.outcomes.length ∧
    (∀ i < t.outcomes.length, i ∉ voidedIndicesOf cfg t →
      cfg.minWeight ≤ r.newWeights.getD i 0) ∧
    (∀ i ∈ voidedIndicesOf cfg t, r.newWeights.getD i 0 = 0) := by
  by_cases hn0 : t.outcomes.length = 0
  · unfold optimizeTable at hok
    rw [if_pos hn0] at hok
    exact absurd hok (by simp)
  · cases hassign : assignOutcomesToBuckets cfg.buckets (normPayouts t) with
    | none =>
      rw [optimizeTable_unfold cfg t hn0, hassign] at hok
      exact absurd hok (by simp)
    | some pair =>
      obtain ⟨as0, loss⟩ := pair
      obtain ⟨has0, hloss⟩ := assign_some_inv cfg.buckets (normPayouts t) as0 loss hassign
      subst has0
      subst hloss
      rw [optimizeTable_unfold cfg t hn0, hassign] at hok
      injection hok with h1
      injection h1 with h2
      subst h2
      refine ⟨?_, ?_, ?_⟩
      · rw [optResult_newWeights]
        unfold optNewWeights
        split
        · rw [fineTune_length]
          unfold optW0
          rw [calcWeights_length, normPayouts_length]
        · unfold optW0
          rw [calcWeights_length, normPayouts_length]
      · intro i hi hnv
        rw [voidedIndicesOf_eq cfg t _ _ hassign] at hnv
        have hir : i < (normPayouts t).length := by
          rw [normPayouts_length]
          exact hi
        rw [optResult_newWeights]
        by_cases hili : i ∈ lossIndicesFor (normPayouts t)
        · have hlossne : lossIndicesFor (normPayouts t) ≠ [] := by
            intro h0
            rw [h0] at hili
            simp at hili
          unfold optNewWeights
          split
          · rw [fineTune_loss_value cfg _ _ _ _ i hili (by
              unfold optW0
              rw [calcWeights_length]
              exact hir)]
            unfold fineTunePer
            exact le_max_left _ _
          · unfold optW0
            rw [calcWeights_loss_value cfg _ _ _ _ hlossne i hili hir]
            unfold lossWeightPerOutcomeOf
            exact le_max_left _ _
        · have hpos : 0 < (normPayouts t).getD i 0 := by
            by_contra hle
            exact hili ((mem_lossIndicesFor _ _).mpr ⟨hir, le_of_not_lt hle⟩)
          obtain ⟨j, hjassign, hjlt⟩ :=
            assignIdxOf_of_some cfg.buckets (normPayouts t) _ _ hassign i hir hpos
          have hnv2 : i ∉ legacyVoidedOutcomeIdx cfg
              (cfg.buckets.enum.map
                (fun jc => mkAssignment cfg.buckets (normPayouts t) jc.1 jc.2)) :=
            fun h => hnv (List.mem_append_left _ h)
          have hjnl : j ∉ legacyVoidedBucketIdx cfg := by
            intro hjl
            exact hnv2 (legacyVoided_mem_intro cfg (normPayouts t) j i hjlt hjl
              ((mem_bucketIndicesFor _ _ _ _).mpr ⟨hir, hpos, hjassign⟩))
          have hmid : cfg.minWeight ≤ midWeightsFun cfg.minWeight
              (legacyVoidedOutcomeIdx cfg (cfg.buckets.enum.map
                (fun jc => mkAssignment cfg.buckets (normPayouts t) jc.1 jc.2))
                ++ (autoVoidResult cfg t).1)
              ((calculateTargetProbabilities cfg (markLegacyVoided cfg
                (cfg.buckets.enum.map
                  (fun jc => mkAssignment cfg.buckets (normPayouts t) jc.1 jc.2)))).1)
              i := by
            apply shaped_win_weight_ge cfg (normPayouts t) _ _ i j
              (pipeline_length cfg (normPayouts t)) ?_ hjlt hjassign hir hpos hnv hjnl
            intro k hk
            obtain ⟨b2, he, h1b, h2b⟩ := pipeline_bucket_shape cfg (normPayouts t) k hk
            rw [he]
            exact ⟨h1b, h2b⟩
          unfold optNewWeights
          split
          · rw [fineTune_other_value cfg _ _ _ _ i hili (by
              unfold optW0
              rw [calcWeights_length]
              exact hir)]
            unfold optW0
            rw [calcWeights_win_value cfg _ _ _ _ ?_ i hir hpos]
            · exact hmid
            · intro k hk
              exact ((mem_lossIndicesFor _ _).mp hk).2
          · unfold optW0
            rw [calcWeights_win_value cfg _ _ _ _ ?_ i hir hpos]
            · exact hmid
            · intro k hk
              exact ((mem_lossIndicesFor _ _).mp hk).2
      · intro i hiv
        rw [voidedIndicesOf_eq cfg t _ _ hassign] at hiv
        have hpos_ir : 0 < (normPayouts t).getD i 0 := by
          rcases List.mem_append.mp hiv with h1 | h2
          · exact (legacyVoided_pos cfg (normPayouts t) i h1).2
          · revert h2
            unfold autoVoidResult
            split
            · intro h2
              exact autoVoid_pos (normPayouts t) (t.outcomes.map (fun o => o.simID))
                cfg.targetRTP (calculateMinAchievableRTP (normPayouts t)) i h2
            · intro h2
              simp at h2
        have hir : i < (normPayouts t).length := by
          by_contra hge
          rw [List.getD_eq_default _ _ (le_of_not_lt hge)] at hpos_ir
          exact lt_irrefl 0 hpos_ir
        have hili : i ∉ lossIndicesFor (normPayouts t) := by
          intro hmem
          exact absurd hpos_ir (not_lt.mpr ((mem_lossIndicesFor _ _).mp hmem).2)
        rw [optResult_newWeights]
        unfold optNewWeights
        split
        · rw [fineTune_other_value cfg _ _ _ _ i hili (by
            unfold optW0
            rw [calcWeights_length]
            exact hir)]
          unfold optW0
          rw [calcWeights_win_value cfg _ _ _ _ ?_ i hir hpos_ir]
          · exact midWeightsFun_voided _ _ _ i hiv
          · intro k hk
            exact ((mem_lossIndicesFor _ _).mp hk).2
        · unfold optW0
          rw [calcWeights_win_value cfg _ _ _ _ ?_ i hir hpos_ir]
          · exact midWeightsFun_voided _ _ _ i hiv
          · intro k hk
            exact ((mem_lossIndicesFor _ _).mp hk).2

/-- C5: for every table the optimizer accepts, under the configuration
normalization of `NewBucketOptimizer`, the result's `newWeights` has one
entry per outcome, `minWeight ≥ 1`, every non-voided outcome's weight is at
least `minWeight`, and every voided outcome's weight is exactly 0. -/
theorem c5_weight_invariants (cfg0 : BucketOptimizerConfig) (t : LookupTable)
    (r : BucketOptimizerResult)
    (hok : optimizeTable (normalizeConfig cfg0) t = some (Except.ok r)) :
    r.newWeights.length = t.outcomes.length ∧
    1 ≤ (normalizeConfig cfg0).minWeight ∧
    (∀ i < t.outcomes.length, i ∉ voidedIndicesOf (normalizeConfig cfg0) t →
      (normalizeConfig cfg0).minWeight ≤ r.newWeights.getD i 0) ∧
    (∀ i ∈ voidedIndicesOf (normalizeConfig cfg0) t,
      r.newWeights.getD i 0 = 0) := by
  obtain ⟨h1, h2, h3⟩ := optimize_invariants (normalizeConfig cfg0) t r hok
  refine ⟨h1, ?_, h2, h3⟩
  unfold normalizeConfig
  dsimp only
  split
  · exact le_refl 1
  · omega

/-- C5 witness: the invariants hold on a concrete one-outcome loss table. -/
theorem c5_witness :
    optimizeTable (normalizeConfig cfgC5) tblC5 = some (Except.ok resC5) ∧
    (resC5.newWeights.length = tblC5.outcomes.length ∧
     1 ≤ (normalizeConfig cfgC5).minWeight ∧
     (∀ i < tblC5.outcomes.length,
        i ∉ voidedIndicesOf (normalizeConfig cfgC5) tblC5 →
        (normalizeConfig cfgC5).minWeight ≤ resC5.newWeights.getD i 0) ∧
     (∀ i ∈ voidedIndicesOf (normalizeConfig cfgC5) tblC5,
        resC5.newWeights.getD i 0 = 0)) := by
  have h : optimizeTable (normalizeConfig cfgC5) tblC5 = some (Except.ok resC5) :=
    of_decide_eq_true (by with_unfolding_all rfl)
  exact ⟨h, c5_weight_invariants cfgC5 tblC5 resC5 h⟩

/-! ## C10 — error behaviour of `OptimizeTable` vs the analyzer -/

/-- The effective cost is always positive. -/
theorem effCost_pos (t : LookupTable) : 0 < effCost t := by
  unfold effCost
  split
  · norm_num
  · rename_i h
    exact lt_of_not_le h

/-- In an all-loss table, every normalized payout entry is nonpositive. -/
theorem normPayouts_getD_nonpos (t : LookupTable)
    (hp : ∀ o ∈ t.outcomes, o.payout ≤ 0) (i : ℕ) :
    (normPayouts t).getD i 0 ≤ 0 := by
  by_cases hir : i < (normPayouts t).length
  · rw [List.getD_eq_getElem _ _ hir]
    unfold normPayouts at hir ⊢
    rw [List.getElem_map]
    apply div_nonpos_iff.mpr
    refine Or.inr ⟨?_, le_of_lt (effCost_pos t)⟩
    apply div_nonpos_iff.mpr
    refine Or.inr ⟨?_, by norm_num⟩
    have hi2 : i < t.outcomes.length := by simpa using hir
    have hple := hp t.outcomes[i] (List.getElem_mem hi2)
    exact_mod_cast hple
  · rw [List.getD_eq_default _ _ (le_of_not_lt hir)]

/-- On an all-loss table the assignment step succeeds with the canonical
(trivially all-loss) partition. -/
theorem assign_all_loss (cfg : BucketOptimizerConfig) (t : LookupTable)
    (hp : ∀ o ∈ t.outcomes, o.payout ≤ 0) :
    assignOutcomesToBuckets cfg.buckets (normPayouts t)
      = some (cfg.buckets.enum.map
          (fun jc => mkAssignment cfg.buckets (normPayouts t) jc.1 jc.2),
        lossIndicesFor (normPayouts t)) := by
  unfold assignOutcomesToBuckets
  have hcond : ¬ ((List.range (normPayouts t).length).any
      (fun i => decide (0 < (normPayouts t).getD i 0) &&
        (assignIdxOf cfg.buckets ((normPayouts t).getD i 0)).isNone) = true) := by
    rw [List.any_eq_true]
    rintro ⟨i, -, hb⟩
    rw [Bool.and_eq_true, decide_eq_true_eq] at hb
    exact absurd hb.1 (not_lt.mpr (normPayouts_getD_nonpos t hp i))
  rw [if_neg hcond]

/-- The analyzer rejects every nonempty all-loss table. -/
theorem analyzeTable_all_loss (t : LookupTable) (targetRTP : ℚ)
    (hne : t.outcomes ≠ []) (hp : ∀ o ∈ t.outcomes, o.payout ≤ 0) :
    analyzeTable t targetRTP = Except.error "no winning outcomes in table" := by
  unfold analyzeTable
  have hn0 : ¬ t.outcomes.length = 0 := by
    intro h
    exact hne (List.length_eq_zero.mp h)
  rw [if_neg hn0]
  have hwins : winPayoutsOf t = [] := by
    unfold winPayoutsOf
    apply List.filter_eq_nil_iff.mpr
    intro p hpmem
    obtain ⟨i, hi, hpi⟩ := List.mem_iff_getElem.mp hpmem
    rw [decide_eq_true_iff]
    intro hppos
    have hle : (normPayouts t).getD i 0 ≤ 0 := normPayouts_getD_nonpos t hp i
    rw [List.getD_eq_getElem _ _ hi, hpi] at hle
    exact absurd hppos (not_lt.mpr hle)
  dsimp only
  rw [if_pos (show (winPayoutsOf t).length = 0 by rw [hwins]; rfl)]

/-- C10: `OptimizeTable` returns an error exactly on the empty table; a
nonempty all-loss table yields a normal result, while the analyzer rejects it
with `"no winning outcomes in table"`. -/
theorem c10_error_iff_empty (cfg : BucketOptimizerConfig) (t : LookupTable)
    (targetRTP : ℚ) :
    ((∃ e, optimizeTable cfg t = some (Except.error e)) ↔ t.outcomes = []) ∧
    ((∀ o ∈ t.outcomes, o.payout ≤ 0) → t.outcomes ≠ [] →
      (∃ r, optimizeTable cfg t = some (Except.ok r)) ∧
      analyzeTable t targetRTP = Except.error "no winning outcomes in table") := by
  constructor
  · constructor
    · rintro ⟨e, he⟩
      by_contra hne
      have hn0 : ¬ t.outcomes.length = 0 := by
        intro h
        exact hne (List.length_eq_zero.mp h)
      rw [optimizeTable_unfold cfg t hn0] at he
      cases hassign : assignOutcomesToBuckets cfg.buckets (normPayouts t) with
      | none =>
        rw [hassign] at he
        exact absurd he (by simp)
      | some pair =>
        obtain ⟨as0, loss⟩ := pair
        rw [hassign] at he
        injection he with h1
        exact Except.noConfusion h1
    · intro h
      refine ⟨"empty table", ?_⟩
      unfold optimizeTable
      rw [if_pos (show t.outcomes.length = 0 by rw [h]; rfl)]
  · intro hp hne
    have hn0 : ¬ t.outcomes.length = 0 := fun h => hne (List.length_eq_zero.mp h)
    refine ⟨⟨optResult cfg t
        (cfg.buckets.enum.map
          (fun jc => mkAssignment cfg.buckets (normPayouts t) jc.1 jc.2))
        (lossIndicesFor (normPayouts t)), ?_⟩,
      analyzeTable_all_loss t targetRTP hne hp⟩
    rw [optimizeTable_unfold cfg t hn0, assign_all_loss cfg t hp]

/-- C10 witness: a concrete nonempty all-loss table is accepted by the
optimizer and rejected by the analyzer. -/
theorem c10_witness :
    tblC10.outcomes ≠ [] ∧ (∀ o ∈ tblC10.outcomes, o.payout ≤ 0) ∧
    (∃ r, optimizeTable cfgC10 tblC10 = some (Except.ok r)) ∧
    analyzeTable tblC10 (96/100) = Except.error "no winning outcomes in table" := by
  have hp : ∀ o ∈ tblC10.outcomes, o.payout ≤ 0 := by decide
  have hne : tblC10.outcomes ≠ [] := by
    simp [tblC10]
  have h := (c10_error_iff_empty cfgC10 tblC10 (96/100)).2 hp hne
  exact ⟨hne, hp, h.1, h.2⟩

end LutOpt
